import Mathlib

/-!
Verification of the grammarkdown lexer/parser/binder core.

This file gives a shallow embedding, in Lean, of the data model and the
operations of the grammarkdown compiler front-end (scanner / parser /
binder pipeline), translated from the TypeScript sources
(`src/parser.ts`, `src/lib/binder.ts`, `src/symbols.ts`), and proves the
behavioural properties stated in the specification against that
embedding.

Modelling conventions:
* JavaScript `Map`s and sparse arrays become association lists
  (`alookup` / `aset`); `undefined`-able fields become `Option`s, so the
  "map object not yet created" state (`undefined`) is distinguished from
  the empty-map state, exactly as in the source.
* Object references that are mutated in place (symbols, scopes) become
  ids into an explicit heap that is threaded through the functions.
* Machine integers are `Nat` (ids and positions only grow and never
  approach 2^53, so overflow is not modelled).
* Fallible / aborting code (cooperative cancellation) returns `Except`.
-/

namespace GMD

/-- Association-list lookup; the embedding of `Map.get` / sparse-array read. -/
def alookup [DecidableEq α] : List (α × β) → α → Option β
  | [], _ => none
  | (k, v) :: rest, key => if k = key then some v else alookup rest key

/-- Association-list update; the embedding of `Map.set` / sparse-array store:
updates the binding in place when the key is present, otherwise appends. -/
def aset [DecidableEq α] : List (α × β) → α → β → List (α × β)
  | [], key, val => [(key, val)]
  | (k, v) :: rest, key, val =>
      if k = key then (key, val) :: rest else (k, v) :: aset rest key val

/-! ## Symbols (`src/symbols.ts`)

`Symbol` objects carry a globally unique id drawn from the module-level
counter `nextSymbolId`; they are mutable (re-declaration updates
`symbol.parent`).  We model the set of allocated symbols as a heap keyed
by id, together with the counter. -/
/-- Source: `SymbolKind` from `src/symbols.ts`. -/
inductive SymbolKind where
  | sourceFile
  | production
  | parameter
deriving DecidableEq, Repr

abbrev SymbolId := Nat

/-- The mutable per-object data of a `Symbol` (its `id` is the heap key;
`locals` lives in the `BindingTable`, which owns per-symbol scopes). -/
structure SymbolData where
  name : String
  kind : SymbolKind
  parent : Option SymbolId
deriving DecidableEq, Repr

/-- The module-level symbol allocation state: `let nextSymbolId = 0` plus
every `Symbol` allocated so far, keyed by id. -/
structure SymbolHeap where
  nextSymbolId : Nat
  symbols : List (SymbolId × SymbolData)
deriving DecidableEq, Repr

/-- Source: `new Symbol(kind, name)`: `id = ++nextSymbolId` (pre-increment, so the
first symbol gets id 1). -/
def SymbolHeap.newSymbol (h : SymbolHeap) (kind : SymbolKind) (name : String) :
    SymbolId × SymbolHeap :=
  let id := h.nextSymbolId + 1
  (id, ⟨id, aset h.symbols id ⟨name, kind, none⟩⟩)

/-- Source: `symbol.parent = parent` on an allocated symbol. -/
def SymbolHeap.setParent (h : SymbolHeap) (sid : SymbolId)
    (parent : Option SymbolId) : SymbolHeap :=
  match alookup h.symbols sid with
  | some d => ⟨h.nextSymbolId, aset h.symbols sid { d with parent := parent }⟩
  | none => h

/-- Source: `SymbolTable` from `src/symbols.ts`: `nameMap` is
`Map<SymbolKind, Map<string, Symbol>> | undefined`. -/
structure SymbolTable where
  nameMap : Option (List (SymbolKind × List (String × SymbolId)))
deriving DecidableEq, Repr

/-- The empty `new SymbolTable()` (its `nameMap` still `undefined`). -/
def SymbolTable.empty : SymbolTable := ⟨none⟩

/-- Source: `SymbolTable.resolveSymbol(name, kind)`: guarded by JS truthiness of
`name` (the empty string is falsy), then two map lookups. -/
def SymbolTable.resolveSymbol (tbl : SymbolTable) (name : String)
    (kind : SymbolKind) : Option SymbolId :=
  if name ≠ "" then
    match tbl.nameMap with
    | some nameMap =>
        match alookup nameMap kind with
        | some symbols => alookup symbols name
        | none => none
    | none => none
  else none

/-- Source: `SymbolTable.declareSymbol(name, kind, parent)`.  A truthy `name`
declares-or-fetches in the two-level map (`getSymbols(kind, true)`
materialises the maps); an `undefined` or empty name allocates a fresh
`"*missing*"` symbol without touching the table.  In both cases the
returned symbol's `parent` field is assigned. -/
def SymbolTable.declareSymbol (tbl : SymbolTable) (heap : SymbolHeap)
    (name : Option String) (kind : SymbolKind) (parent : Option SymbolId) :
    SymbolId × SymbolTable × SymbolHeap :=
  match name with
  | some s =>
      if s ≠ "" then
        -- const symbols = this.getSymbols(kind, /*create*/ true)
        let nameMap := tbl.nameMap.getD []
        let symbols := (alookup nameMap kind).getD []
        match alookup symbols s with
        | some sid =>
            (sid, ⟨some (aset nameMap kind symbols)⟩, heap.setParent sid parent)
        | none =>
            let (sid, heap) := heap.newSymbol kind s
            (sid, ⟨some (aset nameMap kind (aset symbols s sid))⟩,
              heap.setParent sid parent)
      else
        let (sid, heap) := heap.newSymbol kind "*missing*"
        (sid, tbl, heap.setParent sid parent)
  | none =>
      let (sid, heap) := heap.newSymbol kind "*missing*"
      (sid, tbl, heap.setParent sid parent)

/-- Every symbol id stored in the table is at most `bound` (a well-formedness
fact maintained by `declareSymbol`, which only stores freshly allocated ids). -/
def SymbolTable.idsLe (tbl : SymbolTable) (bound : Nat) : Bool :=
  match tbl.nameMap with
  | none => true
  | some nameMap =>
      nameMap.all fun kv => kv.2.all fun sv => decide (sv.2 ≤ bound)

/-! ## Nodes (modelled) and the `BindingTable` (`src/lib/binder.ts`)

The node module (`nodes.ts`) is not part of the sources provided; only
the shape the binder needs is modelled here. -/
/-- The node kinds the binder distinguishes (`node.kind` comparisons in
`src/lib/binder.ts`); every other syntactic shape behaves like `other`. -/
inductive NodeKind where
  | sourceFile
  | production
  | parameter
  | identifier
  | other
deriving DecidableEq, Repr

/-- Modelled from the spec: a syntax-tree node (`nodes.ts` is not in the
sources).  Per §3 of the spec a node owns an identity suitable for table
indexing (`id`), kind-specific child fields (`forEachChild` visits the
`name` identifier first, then the remaining children), and, for
identifier / source-file nodes, a text value (for a `SourceFile` the
`text` field plays the role of `filename`; for a name `Identifier` it is
the declared name, `none` when the parser recovered an empty identifier). -/
inductive Node where
  | mk (id : Nat) (kind : NodeKind) (text : Option String)
      (name : Option Node) (children : List Node)

/-- Node identity used to index the binder's side tables. -/
def Node.id : Node → Nat
  | .mk i _ _ _ _ => i

def Node.kind : Node → NodeKind
  | .mk _ k _ _ _ => k

def Node.text : Node → Option String
  | .mk _ _ t _ _ => t

def Node.name : Node → Option Node
  | .mk _ _ _ nm _ => nm

def Node.children : Node → List Node
  | .mk _ _ _ _ ch => ch

/-- Source: `BindingTable` from `src/lib/binder.ts`: four independent sparse maps
plus the per-symbol local scopes and the global scope.  Each map field is
`Option`-wrapped because the source leaves them `undefined` until first
use. -/
structure BindingTable where
  globals : SymbolTable
  parentNodes : Option (List (Nat × Node))
  nodeMap : Option (List (Nat × SymbolId))
  symbolReferences : Option (List (SymbolId × List Nat))
  symbolLocals : Option (List (SymbolId × SymbolTable))
  symbolDeclarations : Option (List (SymbolId × List Nat))

/-- A freshly constructed `BindingTable`. -/
def BindingTable.empty : BindingTable :=
  ⟨SymbolTable.empty, none, none, none, none, none⟩

/-- Source: `setParent(node, parent)` (both arguments are non-null here; the
source's guard only filters `undefined` arguments). -/
def BindingTable.setParent (tbl : BindingTable) (node parent : Node) :
    BindingTable :=
  { tbl with parentNodes := some (aset (tbl.parentNodes.getD []) node.id parent) }

/-- Source: `getParent(node)`. -/
def BindingTable.getParent (tbl : BindingTable) (node : Node) : Option Node :=
  tbl.parentNodes.bind fun l => alookup l node.id

/-- Source: `setSymbolForNode` (private). -/
def BindingTable.setSymbolForNode (tbl : BindingTable) (nodeId : Nat)
    (symbol : SymbolId) : BindingTable :=
  { tbl with nodeMap := some (aset (tbl.nodeMap.getD []) nodeId symbol) }

/-- Source: `addReferenceToSymbol` (private): appends the node to the symbol's
reference sequence unless it is already present (`indexOf` dedup). -/
def BindingTable.addReferenceToSymbol (tbl : BindingTable) (symbol : SymbolId)
    (nodeId : Nat) : BindingTable :=
  let refs := tbl.symbolReferences.getD []
  let cur := (alookup refs symbol).getD []
  let cur' := if nodeId ∈ cur then cur else cur ++ [nodeId]
  { tbl with symbolReferences := some (aset refs symbol cur') }

/-- Source: `getSymbol(node)`. -/
def BindingTable.getSymbol (tbl : BindingTable) (node : Node) : Option SymbolId :=
  tbl.nodeMap.bind fun l => alookup l node.id

/-- Source: `setSymbol(node, symbol)`: owner entry plus a deduplicated reference. -/
def BindingTable.setSymbol (tbl : BindingTable) (node : Node)
    (symbol : SymbolId) : BindingTable :=
  (tbl.setSymbolForNode node.id symbol).addReferenceToSymbol symbol node.id

/-- Source: `addDeclarationToSymbol(symbol, node)`: pushes the declaration site
unconditionally (duplicates allowed), records the owner, and, for
non-`SourceFile` declarations, records the `name` identifier as a
reference.  (In the source, `Production`/`Parameter` nodes always carry a
`name` child; a `none` name adds no reference.) -/
def BindingTable.addDeclarationToSymbol (tbl : BindingTable) (symbol : SymbolId)
    (node : Node) : BindingTable :=
  let decls := tbl.symbolDeclarations.getD []
  let cur := (alookup decls symbol).getD []
  let tbl := { tbl with
    symbolDeclarations := some (aset decls symbol (cur ++ [node.id])) }
  let tbl := tbl.setSymbolForNode node.id symbol
  if node.kind ≠ NodeKind.sourceFile then
    match node.name with
    | some nameNode => tbl.addReferenceToSymbol symbol nameNode.id
    | none => tbl
  else tbl

/-- Source: `getDeclarations(symbol)`. -/
def BindingTable.getDeclarations (tbl : BindingTable) (symbol : SymbolId) :
    List Nat :=
  (alookup (tbl.symbolDeclarations.getD []) symbol).getD []

/-- Source: `getReferences(symbol)`. -/
def BindingTable.getReferences (tbl : BindingTable) (symbol : SymbolId) :
    List Nat :=
  (alookup (tbl.symbolReferences.getD []) symbol).getD []

/-- The loop of `BindingTable.resolveSymbol`, fueled: `fuel` bounds the
number of ancestors walked (the source's `while (location)` loop relies on
the acyclicity of binder-produced parent links; fuel is only a totality
device).  `locals` is the captured `this.symbolLocals` store. -/
def BindingTable.resolveSymbolAux (tbl : BindingTable)
    (locals : List (SymbolId × SymbolTable)) (name : String)
    (meaning : SymbolKind) : Nat → Option Node → Option SymbolId
  | _, none => none
  | 0, some _ => none
  | fuel + 1, some location =>
      if location.kind = NodeKind.sourceFile then
        -- const result = this.globals.resolveSymbol(...); if (result) return result; break
        tbl.globals.resolveSymbol name meaning
      else
        let symbol := tbl.getSymbol location
        let localScope := symbol.bind fun sid => alookup locals sid
        match localScope.bind fun sc => sc.resolveSymbol name meaning with
        | some r => some r
        | none =>
            tbl.resolveSymbolAux locals name meaning fuel (tbl.getParent location)

/-- Source: `resolveSymbol(location, name, meaning)` from `src/lib/binder.ts`.
Note the outer guard: when `this.symbolLocals` is still `undefined` the
function answers `undefined` without walking at all. -/
def BindingTable.resolveSymbol (tbl : BindingTable) (location : Node)
    (name : String) (meaning : SymbolKind) (fuel : Nat) : Option SymbolId :=
  match tbl.symbolLocals with
  | some locals => tbl.resolveSymbolAux locals name meaning fuel (some location)
  | none => none

/-- The ancestor path from a node: the node itself followed by its parents
through the parent-link side table (fueled like the walk). -/
def BindingTable.ancestorPath (tbl : BindingTable) :
    Nat → Option Node → List Node
  | _, none => []
  | 0, some _ => []
  | fuel + 1, some n => n :: tbl.ancestorPath fuel (tbl.getParent n)

/-- The resolution policy in the specification's words: walk the ancestor
path; at each ancestor that has a symbol, check that symbol's private
local scope for a (meaning, name) match; on reaching a `SourceFile` node
consult the file-global scope and stop; return the first symbol found. -/
def BindingTable.resolveSpecPath (tbl : BindingTable) (name : String)
    (meaning : SymbolKind) : List Node → Option SymbolId
  | [] => none
  | n :: rest =>
      if n.kind = NodeKind.sourceFile then
        tbl.globals.resolveSymbol name meaning
      else
        let localScope := (tbl.getSymbol n).bind fun sid =>
          alookup (tbl.symbolLocals.getD []) sid
        match localScope.bind fun sc => sc.resolveSymbol name meaning with
        | some r => some r
        | none => tbl.resolveSpecPath name meaning rest

/-! ## The binder (`src/lib/binder.ts`, class `Binder`)

The binder's `scope` field is a live reference either to
`bindings.globals` or to one of the per-symbol scopes stored in the
`BindingTable`; we model such a reference as a handle resolved against
the current table, so that writes through the handle are seen by every
later read — exactly the aliasing of the source. -/
/-- A reference to a scope owned by the `BindingTable`. -/
inductive ScopeRef where
  | globals
  | locals (sym : SymbolId)
deriving DecidableEq, Repr

/-- Dereference a scope handle. -/
def BindingTable.readScope (tbl : BindingTable) : ScopeRef → SymbolTable
  | .globals => tbl.globals
  | .locals s => (alookup (tbl.symbolLocals.getD []) s).getD SymbolTable.empty

/-- Write through a scope handle. -/
def BindingTable.writeScope (tbl : BindingTable) :
    ScopeRef → SymbolTable → BindingTable
  | .globals, sc => { tbl with globals := sc }
  | .locals s, sc =>
      { tbl with symbolLocals := some (aset (tbl.symbolLocals.getD []) s sc) }

/-- Source: `getScope(container)`: lazily creates (and stores) the container
symbol's private scope, returning a reference to it. -/
def BindingTable.getScope (tbl : BindingTable) (container : SymbolId) :
    ScopeRef × BindingTable :=
  let locals := tbl.symbolLocals.getD []
  match alookup locals container with
  | some _ => (.locals container, { tbl with symbolLocals := some locals })
  | none =>
      (.locals container,
        { tbl with symbolLocals := some (aset locals container SymbolTable.empty) })

/-- The binder's heap-and-table state (the module-level symbol counter
plus the `BindingTable` the binder fills in). -/
structure BinderSt where
  heap : SymbolHeap
  bindings : BindingTable

/-- The binder's mutable traversal fields (`parentNode`, `parentSymbol`,
`scope`); `bindChildren`'s save/restore discipline makes them behave as
parameters of the recursion, which is how they are modelled. -/
structure BindCtx where
  parentNode : Option Node
  parentSymbol : Option SymbolId
  scope : ScopeRef

/-- Source: `Binder.declareSymbol(name, declaration, kind)`: declare-or-fetch in
the current scope, then record the declaration site. -/
def Binder.declareSymbol (ctx : BindCtx) (name : Option String)
    (declaration : Node) (kind : SymbolKind) (st : BinderSt) :
    SymbolId × BinderSt :=
  let scopeTbl := st.bindings.readScope ctx.scope
  let r := scopeTbl.declareSymbol st.heap name kind ctx.parentSymbol
  let bindings' :=
    (st.bindings.writeScope ctx.scope r.2.1).addDeclarationToSymbol r.1 declaration
  (r.1, ⟨r.2.2, bindings'⟩)

mutual
/-- Source: `Binder.bind(node)`: record the parent link, then dispatch on the
node's kind (`bindProduction` / `bindParameter` / generic
`bindChildren`); `bindChildren` visits the `name` child first, then the
remaining children (the modelled `forEachChild` order). -/
def Binder.bind (ctx : BindCtx) : Node → BinderSt → BinderSt
  | node@(.mk _ k _ nm ch), st =>
      let st : BinderSt :=
        match ctx.parentNode with
        | some p => ⟨st.heap, st.bindings.setParent node p⟩
        | none => st
      match k with
      | NodeKind.production =>
          -- bindProduction: declare in the current scope, bind children in
          -- the production's own scope
          let r := Binder.declareSymbol ctx (nm.bind Node.text) node .production st
          let rs := r.2.bindings.getScope r.1
          let ctx' : BindCtx := ⟨some node, some r.1, rs.1⟩
          Binder.bindList ctx' ch (Binder.bindOpt ctx' nm ⟨r.2.heap, rs.2⟩)
      | NodeKind.parameter =>
          -- bindParameter: declare in the current scope, keep the current
          -- parent symbol and scope for the children
          let r := Binder.declareSymbol ctx (nm.bind Node.text) node .parameter st
          let ctx' : BindCtx := ⟨some node, ctx.parentSymbol, ctx.scope⟩
          Binder.bindList ctx' ch (Binder.bindOpt ctx' nm r.2)
      | _ =>
          let ctx' : BindCtx := ⟨some node, ctx.parentSymbol, ctx.scope⟩
          Binder.bindList ctx' ch (Binder.bindOpt ctx' nm st)

/-- Bind an optional child (`forEachChild` skips `undefined` children). -/
def Binder.bindOpt (ctx : BindCtx) : Option Node → BinderSt → BinderSt
  | none, st => st
  | some n, st => Binder.bind ctx n st

/-- Bind a list of children in order. -/
def Binder.bindList (ctx : BindCtx) : List Node → BinderSt → BinderSt
  | [], st => st
  | n :: rest, st => Binder.bindList ctx rest (Binder.bind ctx n st)
end

/-- Source: `Binder.bindSourceFile(file)`.  `ct` is the binder's cancellation
token, modelled from the spec as a flag (prex's `CancellationToken` is
not in the sources; cancellation is cooperative and the token's state
cannot change during the synchronous bind).  A file whose filename
already resolves to a `SourceFile`-kind symbol in the global scope is
skipped. -/
def Binder.bindSourceFile (ct : Bool) (file : Node) (st : BinderSt) :
    Except Unit BinderSt :=
  if ct then .error ()
  else
    match st.bindings.globals.resolveSymbol (file.text.getD "") .sourceFile with
    | some _ => .ok st
    | none =>
        let ctx0 : BindCtx := ⟨none, none, .globals⟩
        let r := Binder.declareSymbol ctx0 file.text file .sourceFile st
        let ctx' : BindCtx := ⟨some file, some r.1, .globals⟩
        .ok (Binder.bindList ctx' file.children (Binder.bindOpt ctx' file.name r.2))

/-! ## C9: invariants over arbitrary `BindingTable` operation sequences -/
/-- The `BindingTable`'s public mutators, as an operation language (C9
quantifies over arbitrary sequences of binding-table operations). -/
inductive BOp where
  | setParent (node parent : Node)
  | setSymbol (node : Node) (symbol : SymbolId)
  | addDeclaration (symbol : SymbolId) (node : Node)
  | getScope (container : SymbolId)

/-- Run one operation against the table. -/
def BOp.apply (tbl : BindingTable) : BOp → BindingTable
  | .setParent n p => tbl.setParent n p
  | .setSymbol n s => tbl.setSymbol n s
  | .addDeclaration s n => tbl.addDeclarationToSymbol s n
  | .getScope c => (tbl.getScope c).2

/-- Run a sequence of operations in order. -/
def applyOps (ops : List BOp) (tbl : BindingTable) : BindingTable :=
  ops.foldl BOp.apply tbl

/-- The declaration sites a sequence of operations records for `s`, one
per `addDeclarationToSymbol` call, duplicates allowed, in order. -/
def declSites (ops : List BOp) (s : SymbolId) : List Nat :=
  ops.filterMap fun op =>
    match op with
    | .addDeclaration s' n => if s' = s then some n.id else none
    | _ => none

/-- Every reference sequence contains any given node at most once. -/
def RefsNodup (refs : Option (List (SymbolId × List Nat))) : Prop :=
  ∀ s l, alookup (refs.getD []) s = some l → l.Nodup

/-- The node-to-symbol map binds each node id at most once. -/
def NodeMapNodup (nodeMap : Option (List (Nat × SymbolId))) : Prop :=
  (((nodeMap.getD []).map Prod.fst)).Nodup

/-! ## The parser (`src/parser.ts`)

The scanner (`scanner.ts`), token enumeration (`tokens.ts`) and
diagnostics module (`diagnostics.ts`) are not among the provided
sources; following the spec they are modelled as: a classified token
stream with a monotonically advancing position (positions are token
indices), and a diagnostic sink that records positioned messages in
order, with a discard (`NullDiagnosticMessages`) mode.  The parser
itself — speculation, the generic list loop, per-context policies,
recovery, `parseSourceFile`'s save/restore — is translated from
`src/parser.ts`. -/
/-- The token kinds the parser's list engine distinguishes (a subset of
`SyntaxKind` from `tokens.ts`, which is not in the sources; only the
kinds the transcribed code inspects are modelled). -/
inductive SyntaxKind where
  | endOfFileToken
  | lineTerminatorToken
  | indentToken
  | dedentToken
  | commaToken
  | closeParenToken
  | closeBracketToken
  | closeBraceToken
  | openBracketToken
  | questionToken
  | colonToken
  | colonColonToken
  | colonColonColonToken
  | terminal
  | identifier
  | unicodeCharacterLiteral
  | orKeyword
  | hereKeyword
  | invalidAssertion
deriving DecidableEq, Repr

/-- Source: `ParsingContext` from `src/parser.ts`. -/
inductive ParsingContext where
  | sourceElements
  | parameters
  | bracketedParameters
  | arguments
  | bracketedArguments
  | rightHandSideListIndented
  | symbolSet
  | oneOfList
  | oneOfListIndented
  | oneOfSymbolList
  | noSymbolHere
deriving DecidableEq, Repr

/-- The `SkipWhitespace` bit flags. -/
structure SkipWhitespaceFlags where
  lineTerminator : Bool
  indentation : Bool
deriving DecidableEq, Repr

/-- The diagnostic messages the list engine reports (`Diagnostics.*`
from `diagnostics.ts`; `expected` stands for `_0_expected` applied to a
`formatList` of token kinds). -/
inductive DiagnosticMessage where
  | productionExpected
  | expected (tokens : List SyntaxKind)
  | unexpectedToken (token : SyntaxKind)
deriving DecidableEq, Repr

/-- A recorded diagnostic: position plus message. -/
structure Diagnostic where
  pos : Nat
  message : DiagnosticMessage
deriving DecidableEq, Repr

/-- Modelled from the spec: the scanner's state — the classified token
stream for the input text, the index of the next unread token, the start
position of the current token (`getStartPos`, equal to `getTokenPos`
here because modelled streams carry no trivia), and whether the
scanner's diagnostic sink is currently the discard sink. -/
structure ScannerState where
  tokens : List SyntaxKind
  pos : Nat
  startPos : Nat
  diagNull : Bool
deriving DecidableEq, Repr

/-- Modelled from the spec: `scan()` returns the next classified token
and advances the internal position; at end of input it keeps returning
`EndOfFileToken` without advancing. -/
def ScannerState.scan (s : ScannerState) : SyntaxKind × ScannerState :=
  match s.tokens[s.pos]? with
  | some t => (t, { s with startPos := s.pos, pos := s.pos + 1 })
  | none => (SyntaxKind.endOfFileToken, { s with startPos := s.pos })

/-- The mutable fields of the `Parser` class, plus the poll counter
`polls` — the model's clock for the cooperative cancellation token
(`cancelledAt = some k` means the token reports cancellation from the
`k`-th poll on; prex's `CancellationToken` is not in the sources).
`diagBag` is the content of the `DiagnosticMessages` object the parser's
`diagnostics` field currently references and `diagNull` whether that
field has been redirected to `NullDiagnosticMessages`.  `tags` is the
pending-markup map (modelled streams carry no markup trivia, so the
model never fills it; the field participates in `parseSourceFile`'s
save/restore contract). -/
structure ParserState where
  scanner : ScannerState
  token : SyntaxKind
  imports : List String
  diagBag : List Diagnostic
  diagNull : Bool
  parsingContext : ParsingContext
  cancelledAt : Option Nat
  polls : Nat
  tags : Option (List (Nat × Nat))
  tagsOffset : Nat
deriving DecidableEq, Repr

/-- Source: `nextToken()`: `this.token = this.scanner.scan()` (the HTML-trivia
attachment never fires for modelled streams). -/
def ParserState.nextToken (st : ParserState) : ParserState :=
  let r := st.scanner.scan
  { st with scanner := r.2, token := r.1 }

/-- Source: `DiagnosticMessages.report` through the parser's `diagnostics`
field: appended to the sequence unless the field holds the discard sink. -/
def ParserState.report (st : ParserState) (pos : Nat)
    (message : DiagnosticMessage) : ParserState :=
  if st.diagNull then st
  else { st with diagBag := st.diagBag ++ [⟨pos, message⟩] }

/-- A scan-time diagnostic, reported through the scanner's own sink
reference. -/
def ParserState.scanReport (st : ParserState) (pos : Nat)
    (message : DiagnosticMessage) : ParserState :=
  if st.scanner.diagNull then st
  else { st with diagBag := st.diagBag ++ [⟨pos, message⟩] }

/-- The cancellation signal. -/
inductive Cancelled where
  | cancelled
deriving DecidableEq, Repr

/-- Source: `cancellationToken.throwIfCancellationRequested()` against the model
clock: raises when the token is cancelled at the current poll count,
otherwise advances the clock. -/
def pollCancellation (cancelledAt : Option Nat) (st : ParserState) :
    Except Cancelled ParserState :=
  match cancelledAt with
  | some k =>
      if k ≤ st.polls then .error .cancelled
      else .ok { st with polls := st.polls + 1 }
  | none => .ok { st with polls := st.polls + 1 }

/-- Source: `this.cancellationToken.throwIfCancellationRequested()` (the token
stored in the parser field). -/
def ParserState.throwIfCancellationRequested (st : ParserState) :
    Except Cancelled ParserState :=
  pollCancellation st.cancelledAt st

/-- Source: `isWhitespace(skip)` as a predicate on the current token. -/
def isWhitespaceTok (skip : SkipWhitespaceFlags) (tok : SyntaxKind) : Bool :=
  match tok with
  | .lineTerminatorToken => skip.lineTerminator
  | .indentToken => skip.indentation
  | .dedentToken => skip.indentation
  | _ => false

/-- The loop of `skipWhitespace(skip)`, fueled (the source loop
terminates because `scan` runs out of tokens; fuel is a totality
device). -/
def skipWhitespaceAux (skip : SkipWhitespaceFlags) :
    Nat → ParserState → ParserState
  | 0, st => st
  | fuel + 1, st =>
      if isWhitespaceTok skip st.token then skipWhitespaceAux skip fuel st.nextToken
      else st

/-- Source: `skipWhitespace(skip)` with sufficient fuel. -/
def ParserState.skipWhitespace (skip : SkipWhitespaceFlags)
    (st : ParserState) : ParserState :=
  skipWhitespaceAux skip (st.scanner.tokens.length + 2) st

/-- The loop of `skipUntil(isRecoveryToken)`, fueled. -/
def skipUntilAux (isRecoveryToken : SyntaxKind → Bool) :
    Nat → ParserState → ParserState
  | 0, st => st
  | fuel + 1, st =>
      if isRecoveryToken st.token || st.token == SyntaxKind.endOfFileToken then st
      else skipUntilAux isRecoveryToken fuel st.nextToken

/-- Source: `skipUntil(isRecoveryToken)` with sufficient fuel. -/
def ParserState.skipUntil (isRecoveryToken : SyntaxKind → Bool)
    (st : ParserState) : ParserState :=
  skipUntilAux isRecoveryToken (st.scanner.tokens.length + 2) st

/-! ### Per-context policies of the list engine (`src/parser.ts`) -/
/-- Source: `shouldSkipWhitespace()`. -/
def shouldSkipWhitespace : ParsingContext → SkipWhitespaceFlags
  | .sourceElements => ⟨true, true⟩
  | .parameters => ⟨true, true⟩
  | .bracketedParameters => ⟨true, true⟩
  | .arguments => ⟨true, true⟩
  | .bracketedArguments => ⟨true, true⟩
  | .symbolSet => ⟨true, true⟩
  | .rightHandSideListIndented => ⟨true, false⟩
  | .oneOfList => ⟨false, false⟩
  | .oneOfListIndented => ⟨true, false⟩
  | .oneOfSymbolList => ⟨false, false⟩
  | .noSymbolHere => ⟨false, false⟩

/-- Source: `shouldConsumeCloseToken()`. -/
def shouldConsumeCloseToken : ParsingContext → Bool
  | .parameters => false
  | .bracketedParameters => false
  | .arguments => false
  | .bracketedArguments => false
  | .symbolSet => false
  | .oneOfListIndented => false
  | .rightHandSideListIndented => false
  | .noSymbolHere => false
  | _ => true

/-- Source: `hasCloseToken()`. -/
def hasCloseToken : ParsingContext → Bool
  | .oneOfSymbolList => false
  | .noSymbolHere => false
  | _ => true

/-- Source: `isOnCloseToken()`. -/
def isOnCloseToken (ctx : ParsingContext) (tok : SyntaxKind) : Bool :=
  match ctx with
  | .sourceElements => tok == .endOfFileToken
  | .parameters => tok == .closeParenToken
  | .arguments => tok == .closeParenToken
  | .bracketedParameters => tok == .closeBracketToken
  | .bracketedArguments => tok == .closeBracketToken
  | .rightHandSideListIndented => tok == .dedentToken || tok == .endOfFileToken
  | .symbolSet => tok == .closeBraceToken
  | .oneOfList =>
      tok == .dedentToken || tok == .lineTerminatorToken || tok == .endOfFileToken
  | .oneOfListIndented => tok == .dedentToken || tok == .endOfFileToken
  | .oneOfSymbolList => false
  | .noSymbolHere => tok == .hereKeyword

/-- Source: `hasSeparator()`. -/
def hasSeparator : ParsingContext → Bool
  | .sourceElements => false
  | .oneOfList => false
  | .oneOfListIndented => false
  | _ => true

/-- Source: `isOnSeparator()`. -/
def isOnSeparator (ctx : ParsingContext) (tok : SyntaxKind) : Bool :=
  match ctx with
  | .parameters => tok == .commaToken
  | .bracketedParameters => tok == .commaToken
  | .arguments => tok == .commaToken
  | .bracketedArguments => tok == .commaToken
  | .symbolSet => tok == .commaToken
  | .rightHandSideListIndented => tok == .lineTerminatorToken
  | .oneOfSymbolList => tok == .orKeyword
  | .noSymbolHere => tok == .orKeyword
  | .sourceElements => false
  | .oneOfList => false
  | .oneOfListIndented => false

/-! The per-context recovery-token predicates. -/
def isSourceElementsRecoveryToken (token : SyntaxKind) : Bool :=
  token == .lineTerminatorToken

def isParametersRecoveryToken (token : SyntaxKind) : Bool :=
  token == .commaToken || token == .identifier || token == .closeParenToken
    || token == .colonToken || token == .colonColonToken
    || token == .colonColonColonToken || token == .lineTerminatorToken

def isBracketedParametersRecoveryToken (token : SyntaxKind) : Bool :=
  token == .commaToken || token == .identifier || token == .closeBracketToken
    || token == .colonToken || token == .colonColonToken
    || token == .colonColonColonToken || token == .lineTerminatorToken

def isArgumentsRecoveryToken (token : SyntaxKind) : Bool :=
  token == .commaToken || token == .questionToken || token == .identifier
    || token == .closeParenToken || token == .lineTerminatorToken

def isBracketedArgumentsRecoveryToken (token : SyntaxKind) : Bool :=
  token == .commaToken || token == .questionToken || token == .identifier
    || token == .closeBracketToken || token == .lineTerminatorToken

def isRightHandSideListIndentedRecoveryToken (token : SyntaxKind) : Bool :=
  token == .dedentToken || token == .lineTerminatorToken

def isSymbolSetRecoveryToken (token : SyntaxKind) : Bool :=
  token == .commaToken || token == .terminal || token == .closeBraceToken
    || token == .lineTerminatorToken

def isOneOfListRecoveryToken (token : SyntaxKind) : Bool :=
  token == .terminal || token == .lineTerminatorToken

def isOneOfListIndentedRecoveryToken (token : SyntaxKind) : Bool :=
  token == .terminal || token == .lineTerminatorToken

def isOneOfSymbolListRecoveryToken (token : SyntaxKind) : Bool :=
  token == .orKeyword || token == .terminal || token == .identifier
    || token == .openBracketToken || token == .questionToken
    || token == .lineTerminatorToken

def isNoSymbolHereRecoveryToken (token : SyntaxKind) : Bool :=
  token == .orKeyword || token == .hereKeyword || token == .terminal
    || token == .identifier || token == .closeBracketToken
    || token == .questionToken || token == .lineTerminatorToken

/-- Source: `recover()`: skip to the context's recovery-token set, then for some
contexts consume one trailing line terminator. -/
def recover (ctx : ParsingContext) (st : ParserState) : ParserState :=
  match ctx with
  | .sourceElements => st.skipUntil isSourceElementsRecoveryToken
  | .parameters =>
      let st := st.skipUntil isParametersRecoveryToken
      if st.token == .lineTerminatorToken then st.nextToken else st
  | .bracketedParameters =>
      let st := st.skipUntil isBracketedParametersRecoveryToken
      if st.token == .lineTerminatorToken then st.nextToken else st
  | .arguments =>
      let st := st.skipUntil isArgumentsRecoveryToken
      if st.token == .lineTerminatorToken then st.nextToken else st
  | .bracketedArguments =>
      let st := st.skipUntil isBracketedArgumentsRecoveryToken
      if st.token == .lineTerminatorToken then st.nextToken else st
  | .rightHandSideListIndented => st.skipUntil isRightHandSideListIndentedRecoveryToken
  | .symbolSet =>
      let st := st.skipUntil isSymbolSetRecoveryToken
      if st.token == .lineTerminatorToken then st.nextToken else st
  | .oneOfList => st.skipUntil isOneOfListRecoveryToken
  | .oneOfListIndented =>
      let st := st.skipUntil isOneOfListIndentedRecoveryToken
      if st.token == .lineTerminatorToken then st.nextToken else st
  | .oneOfSymbolList => st.skipUntil isOneOfSymbolListRecoveryToken
  | .noSymbolHere => st.skipUntil isNoSymbolHereRecoveryToken

/-- Source: `reportDiagnostics()`: report the context's expected-tokens
diagnostic at the current token position (no case — hence no diagnostic —
for the two contexts without a close token). -/
def reportDiagnostics (ctx : ParsingContext) (st : ParserState) : ParserState :=
  match ctx with
  | .sourceElements => st.report st.scanner.startPos .productionExpected
  | .parameters =>
      st.report st.scanner.startPos (.expected [.commaToken, .closeParenToken])
  | .arguments =>
      st.report st.scanner.startPos (.expected [.commaToken, .closeParenToken])
  | .bracketedParameters =>
      st.report st.scanner.startPos (.expected [.commaToken, .closeBracketToken])
  | .bracketedArguments =>
      st.report st.scanner.startPos (.expected [.commaToken, .closeBracketToken])
  | .symbolSet =>
      st.report st.scanner.startPos (.expected [.commaToken, .closeBraceToken])
  | .oneOfList =>
      st.report st.scanner.startPos (.expected [.terminal, .lineTerminatorToken])
  | .oneOfListIndented =>
      st.report st.scanner.startPos (.expected [.terminal, .dedentToken])
  | .rightHandSideListIndented => st.report st.scanner.startPos .productionExpected
  | .oneOfSymbolList => st
  | .noSymbolHere => st

/-- The grammar-specific parts the list engine calls out to: the four
element-start predicates that are full grammar functions, and the
per-context element parsers (`parseSourceElement`, `parseParameter`,
…).  The engine is verified for every instantiation of these hooks. -/
structure GrammarHooks (α : Type) where
  isStartOfSourceElement : ParserState → Bool
  isStartOfParameter : ParserState → Bool
  isStartOfArgument : ParserState → Bool
  isStartOfRightHandSide : ParserState → Bool
  parseElement : ParsingContext → ParserState → Option α × ParserState

/-- Source: `shouldParseElement()`: the per-context element-start predicate. -/
def shouldParseElement (hooks : GrammarHooks α) (ctx : ParsingContext)
    (st : ParserState) : Bool :=
  match ctx with
  | .sourceElements => hooks.isStartOfSourceElement st
  | .parameters => hooks.isStartOfParameter st
  | .bracketedParameters => hooks.isStartOfParameter st
  | .arguments => hooks.isStartOfArgument st
  | .bracketedArguments => hooks.isStartOfArgument st
  | .rightHandSideListIndented => hooks.isStartOfRightHandSide st
  | .symbolSet =>
      st.token == .terminal || st.token == .identifier
        || st.token == .unicodeCharacterLiteral
  | .oneOfList => st.token == .terminal || st.token == .unicodeCharacterLiteral
  | .oneOfListIndented =>
      st.token == .terminal || st.token == .unicodeCharacterLiteral
  | .oneOfSymbolList =>
      st.token == .terminal || st.token == .identifier
        || st.token == .unicodeCharacterLiteral
  | .noSymbolHere =>
      st.token == .terminal || st.token == .identifier
        || st.token == .unicodeCharacterLiteral

/-- One iteration's outcome: loop exit (`stop`), next iteration
(`next`), or a cancellation raise carrying the state at the throw. -/
inductive IterOut (α : Type) where
  | stop (result : Option (List α)) (st : ParserState)
  | next (result : Option (List α)) (st : ParserState)
  | cancelled (st : ParserState)

/-- Steps 4–5 of a `parseList` iteration: the close-token check
(`parseCloseToken` consumes, `isOnCloseToken` peeks), then the
separator-or-parsed check, which on failure either breaks (no close
token) or reports the context's diagnostic and recovers. -/
def listCloseSepPhase (ctx : ParsingContext) (result : Option (List α))
    (parsed : Bool) (st : ParserState) : IterOut α :=
  let c : Bool × ParserState :=
    if hasCloseToken ctx then
      if shouldConsumeCloseToken ctx then
        if isOnCloseToken ctx st.token then (true, st.nextToken) else (false, st)
      else (isOnCloseToken ctx st.token, st)
    else (false, st)
  if c.1 then .stop result c.2
  else
    let sep : Bool × ParserState :=
      if hasSeparator ctx then
        if isOnSeparator ctx c.2.token then (true, c.2.nextToken) else (false, c.2)
      else (parsed, c.2)
    if sep.1 then .next result sep.2
    else if hasCloseToken ctx = false then .stop result sep.2
    else .next result (recover ctx (reportDiagnostics ctx sep.2))

/-- One iteration of the `parseList` loop body: poll cancellation, skip
the context's insignificant whitespace, attempt an element (appending on
success, recovering on failure), then the close/separator phase. -/
def parseListIter (hooks : GrammarHooks α) (ctx : ParsingContext)
    (st : ParserState) (result : Option (List α)) : IterOut α :=
  match st.throwIfCancellationRequested with
  | .error _ => .cancelled st
  | .ok st1 =>
      let st2 := st1.skipWhitespace (shouldSkipWhitespace ctx)
      if shouldParseElement hooks ctx st2 then
        let result0 := some (result.getD [])
        let r := hooks.parseElement ctx st2
        match r.1 with
        | some e => listCloseSepPhase ctx (some ((result0.getD []) ++ [e])) true r.2
        | none => listCloseSepPhase ctx result0 true (recover ctx r.2)
      else listCloseSepPhase ctx result false st2

/-- The `while (!this.isEOF())` loop of `parseList`, fueled (with
arbitrary hooks the loop need not terminate; the grammar's actual
element parsers always make progress). -/
def parseListLoop (hooks : GrammarHooks α) (ctx : ParsingContext) :
    Nat → ParserState → Option (List α) →
    Except Cancelled (Option (List α)) × ParserState
  | 0, st, result => (.ok result, st)
  | fuel + 1, st, result =>
      if st.token == SyntaxKind.endOfFileToken then (.ok result, st)
      else
        match parseListIter hooks ctx st result with
        | .cancelled st' => (.error .cancelled, st')
        | .stop r st' => (.ok r, st')
        | .next r st' => parseListLoop hooks ctx fuel st' r

/-- Source: `parseList(listContext, result?)`: set the parsing context, run the
loop, restore the context on normal exit (a cancellation raise skips the
restore — the source has no `finally` here; `parseSourceFile`'s does it). -/
def parseList (hooks : GrammarHooks α) (listContext : ParsingContext)
    (fuel : Nat) (st : ParserState) (result : Option (List α)) :
    Except Cancelled (Option (List α)) × ParserState :=
  let saveContext := st.parsingContext
  let st := { st with parsingContext := listContext }
  let r := parseListLoop hooks listContext fuel st result
  match r.1 with
  | .ok res => (.ok res, { r.2 with parsingContext := saveContext })
  | .error c => (.error c, r.2)

/-- The model of the `SourceFile` object `parse` constructs (`filename`,
`text` — here the classified token stream —, the element list filled by
`parseSourceElementList`, the collected imports and the file's own
parse-time diagnostic sequence). -/
structure ModelSourceFile (α : Type) where
  filename : String
  text : List SyntaxKind
  elements : Option (List α)
  imports : List String
  parseDiagnostics : List Diagnostic

/-- Source: `Parser.parse`: fresh imports/diagnostics/scanner, prime the first
token, run the source-element list, then package the `SourceFile`.
(The source does *not* reset `this.tags` here.) -/
def Parser.parse (hooks : GrammarHooks α) (filename : String)
    (text : List SyntaxKind) (cancellationToken : Option Nat) (fuel : Nat)
    (st : ParserState) :
    Except Cancelled (ModelSourceFile α) × ParserState :=
  let st := { st with
    imports := [],
    diagBag := [], diagNull := false,
    cancelledAt := cancellationToken,
    parsingContext := ParsingContext.sourceElements,
    tagsOffset := 0,
    scanner := ⟨text, 0, 0, false⟩ }
  let st := st.nextToken
  let r := parseList hooks .sourceElements fuel st (some [])
  match r.1 with
  | .ok elements =>
      (.ok ⟨filename, text, elements, r.2.imports, r.2.diagBag⟩, r.2)
  | .error c => (.error c, r.2)

/-- Source: `parseSourceFile(filename, text, cancellationToken)`: poll the
argument token, save the parser's mutable fields, run `parse`, and in a
`finally` restore the saved fields — on the normal and the exception
path alike.  (Note the source does not save or restore `this.token`.) -/
def Parser.parseSourceFile (hooks : GrammarHooks α) (filename : String)
    (text : List SyntaxKind) (cancellationToken : Option Nat) (fuel : Nat)
    (st : ParserState) :
    Except Cancelled (ModelSourceFile α) × ParserState :=
  match pollCancellation cancellationToken st with
  | .error c => (.error c, st)
  | .ok st =>
      let savedImports := st.imports
      let savedDiagBag := st.diagBag
      let savedDiagNull := st.diagNull
      let savedCancelledAt := st.cancelledAt
      let savedScanner := st.scanner
      let savedParsingContext := st.parsingContext
      let savedTags := st.tags
      let savedTagsOffset := st.tagsOffset
      let r := Parser.parse hooks filename text cancellationToken fuel st
      (r.1, { r.2 with
        imports := savedImports,
        diagBag := savedDiagBag,
        diagNull := savedDiagNull,
        cancelledAt := savedCancelledAt,
        scanner := savedScanner,
        parsingContext := savedParsingContext,
        tags := savedTags,
        tagsOffset := savedTagsOffset })

/-! ### Speculation (`lookahead` / `tryParse` / `speculate`)

The callbacks handed to `lookahead`/`tryParse` are parser code; they are
modelled as programs over the parser's primitive state operations
(token consumption, reports through the parser's or the scanner's sink,
parsing-context changes, and nested speculation), together with a
truthiness function computing the callback's result from the state it
reaches.  Cancellation polls are excluded: a cancellation raise unwinds
out of `speculate` altogether (no `finally` there) and is the concern of
C7, not of the rollback contract. -/
/-- Callback programs over the parser's primitive operations. -/
inductive PProg where
  | done
  | nextToken (k : PProg)
  | report (message : DiagnosticMessage) (k : PProg)
  | scanReport (message : DiagnosticMessage) (k : PProg)
  | setParsingContext (ctx : ParsingContext) (k : PProg)
  | speculate (sub : PProg) (res : ParserState → Bool) (isLookahead : Bool)
      (k : PProg)

/-- Modelled from the spec: `Scanner#speculate(callback, isLookahead)` —
save the scanner's position/state, redirect the scanner's diagnostics to
the discard sink, run the callback, restore the diagnostics reference,
and restore the saved position/state if `isLookahead` or the callback's
result is falsy. -/
def scannerSpeculate (run : ParserState → ParserState)
    (res : ParserState → Bool) (isLookahead : Bool) (st : ParserState) :
    Bool × ParserState :=
  let savedScanner := st.scanner
  let st1 := { st with scanner := { st.scanner with diagNull := true } }
  let st2 := run st1
  let r := res st2
  let st3 := { st2 with scanner := { st2.scanner with diagNull := savedScanner.diagNull } }
  let st4 := if !r || isLookahead then { st3 with scanner := savedScanner } else st3
  (r, st4)

/-- Source: `Parser.speculate(callback, isLookahead)` from the source: save the
current token, parsing context and diagnostics reference; redirect the
parser's diagnostics to `NullDiagnosticMessages`; run the callback under
`scanner.speculate`; restore the diagnostics reference; and restore
token and parsing context if the result is falsy or this is a lookahead. -/
def parserSpeculate (run : ParserState → ParserState)
    (res : ParserState → Bool) (isLookahead : Bool) (st : ParserState) :
    Bool × ParserState :=
  let saveToken := st.token
  let saveParsingContext := st.parsingContext
  let saveDiagNull := st.diagNull
  let st1 := { st with diagNull := true }
  let r := scannerSpeculate run res isLookahead st1
  let st2 := { r.2 with diagNull := saveDiagNull }
  let st3 :=
    if !r.1 || isLookahead then
      { st2 with token := saveToken, parsingContext := saveParsingContext }
    else st2
  (r.1, st3)

/-- Run a callback program. -/
def runProg : PProg → ParserState → ParserState
  | .done, st => st
  | .nextToken k, st => runProg k st.nextToken
  | .report m k, st => runProg k (st.report st.scanner.startPos m)
  | .scanReport m k, st => runProg k (st.scanReport st.scanner.startPos m)
  | .setParsingContext c k, st => runProg k { st with parsingContext := c }
  | .speculate sub res isLookahead k, st =>
      runProg k (parserSpeculate (fun s => runProg sub s) res isLookahead st).2

/-- Source: `lookahead(callback)` = `speculate(callback, /*isLookahead*/ true)`. -/
def Parser.lookahead (sub : PProg) (res : ParserState → Bool)
    (st : ParserState) : Bool × ParserState :=
  parserSpeculate (fun s => runProg sub s) res true st

/-- Source: `tryParse(callback)` = `speculate(callback, /*isLookahead*/ false)`. -/
def Parser.tryParse (sub : PProg) (res : ParserState → Bool)
    (st : ParserState) : Bool × ParserState :=
  parserSpeculate (fun s => runProg sub s) res false st

/-- The state a speculation callback actually runs in: both the parser's
and the scanner's diagnostic references redirected to the discard sink. -/
def speculationEntry (st : ParserState) : ParserState :=
  { st with diagNull := true, scanner := { st.scanner with diagNull := true } }

/-! ### The context's recovery set and expected-tokens diagnostic, as
the specification's tables describe them -/
/-- The recovery-token set of each context. -/
def contextRecoveryPred : ParsingContext → SyntaxKind → Bool
  | .sourceElements => isSourceElementsRecoveryToken
  | .parameters => isParametersRecoveryToken
  | .bracketedParameters => isBracketedParametersRecoveryToken
  | .arguments => isArgumentsRecoveryToken
  | .bracketedArguments => isBracketedArgumentsRecoveryToken
  | .rightHandSideListIndented => isRightHandSideListIndentedRecoveryToken
  | .symbolSet => isSymbolSetRecoveryToken
  | .oneOfList => isOneOfListRecoveryToken
  | .oneOfListIndented => isOneOfListIndentedRecoveryToken
  | .oneOfSymbolList => isOneOfSymbolListRecoveryToken
  | .noSymbolHere => isNoSymbolHereRecoveryToken

/-- Whether the context's `recover` additionally consumes one trailing
line terminator after reaching the recovery set. -/
def consumesTrailingLineTerminator : ParsingContext → Bool
  | .parameters => true
  | .bracketedParameters => true
  | .arguments => true
  | .bracketedArguments => true
  | .symbolSet => true
  | .oneOfListIndented => true
  | _ => false

/-- The expected-tokens diagnostic each context owns (`none` for the two
contexts that have no close token and never report from the list loop). -/
def expectedTokensDiagnostic : ParsingContext → Option DiagnosticMessage
  | .sourceElements => some .productionExpected
  | .parameters => some (.expected [.commaToken, .closeParenToken])
  | .arguments => some (.expected [.commaToken, .closeParenToken])
  | .bracketedParameters => some (.expected [.commaToken, .closeBracketToken])
  | .bracketedArguments => some (.expected [.commaToken, .closeBracketToken])
  | .symbolSet => some (.expected [.commaToken, .closeBraceToken])
  | .oneOfList => some (.expected [.terminal, .lineTerminatorToken])
  | .oneOfListIndented => some (.expected [.terminal, .dedentToken])
  | .rightHandSideListIndented => some .productionExpected
  | .oneOfSymbolList => none
  | .noSymbolHere => none

/-! ## Node ranges (C8)

With a single exception, the parse functions in the source build nodes
the same way: capture `fullStart` from the scanner at — or, when
wrapping an already-parsed node, before — the position where the first
child starts, parse the children left to right while the scanner
position only advances (rolled-back speculation never retreats below a
position already reached, and nodes built inside a discarded lookahead
are not retained), and finally call `finishNode(node, fullStart)`,
which stamps `node.pos = fullStart` and
`node.end = scanner.getStartPos()`.  `BuiltF` captures this regular
discipline, and `builtF_range` shows every tree built under it
satisfies the range invariants.

The exception — and the reason claim C8 is false of the program — is
`parseInvalidAssertionTail`: unlike its six sibling `*AssertionTail`
functions, which pass `openBracketToken.pos` to `finishNode`, it
captures `fullStart = this.scanner.getStartPos()` *after* its
`openBracketToken` child was already consumed, so the child's range
falls outside the node's.  It is embedded separately below
(`Parser.parseInvalidAssertionTail`) and refuted concretely. -/
/-- A finished syntax-tree node: kind, the `pos`/`end` half-open range
stamped by `finishNode`, and the children in document order. -/
inductive PNode where
  | mk (kind : SyntaxKind) (pos : Nat) (endPos : Nat) (children : List PNode)

def PNode.pos : PNode → Nat
  | .mk _ p _ _ => p

def PNode.endPos : PNode → Nat
  | .mk _ _ q _ => q

def PNode.children : PNode → List PNode
  | .mk _ _ _ ch => ch

/-- Source: `finishNode(node, fullStart)`: `node.pos = fullStart`,
`node.end = this.scanner.getStartPos()`. -/
def finishNode (kind : SyntaxKind) (fullStart : Nat) (scannerStartPos : Nat)
    (children : List PNode) : PNode :=
  .mk kind fullStart scannerStartPos children

mutual
/-- The node was built by one of the regular parse functions (every
node-building site in the source except `parseInvalidAssertionTail`):
`fullStart = p` was captured no later than the first child's start, the
children were built while the scanner advanced, and `finishNode` ran
with the scanner at `q`. -/
def BuiltF (p : Nat) : PNode → Nat → Prop
  | .mk _ p0 q0 children, q => p0 = p ∧ q0 = q ∧ BuiltChildrenF p children q

/-- The children were built left to right between scanner positions `c`
and `q`, each child itself built by the discipline, with the scanner
only ever advancing (tokens may be consumed between and after children). -/
def BuiltChildrenF (c : Nat) : List PNode → Nat → Prop
  | [], q => c ≤ q
  | ch :: rest, q =>
      ∃ cStart qEnd, c ≤ cStart ∧ BuiltF cStart ch qEnd
        ∧ BuiltChildrenF qEnd rest q
end

mutual
/-- The range invariant the claim asserts: `pos ≤ end`, and recursively
each child's half-open range is contained in its parent's. -/
def rangeWF : PNode → Bool
  | .mk _ p q children => decide (p ≤ q) && rangeWFList p q children

/-- All nodes of the list lie within `[p, q)` and are themselves
range-well-formed. -/
def rangeWFList (p q : Nat) : List PNode → Bool
  | [] => true
  | c :: rest =>
      decide (p ≤ c.pos) && decide (c.endPos ≤ q) && rangeWF c
        && rangeWFList p q rest
end

/-- Source: `parseToken(token)`: if the current token matches, capture
`fullStart = getStartPos()`, consume the token, and finish a childless
token node (its `end` is the new `getStartPos()`). -/
def Parser.parseToken (token : SyntaxKind) (st : ParserState) :
    Option PNode × ParserState :=
  if st.token == token then
    let fullStart := st.scanner.startPos
    let st2 := st.nextToken
    (some (finishNode token fullStart st2.scanner.startPos []), st2)
  else (none, st)

/-- Source: `isInvalidConstraintTailRecoveryToken`. -/
def isInvalidConstraintTailRecoveryToken (token : SyntaxKind) : Bool :=
  token == .closeBracketToken || token == .lineTerminatorToken
    || token == .terminal || token == .identifier

/-- Source: `parseInvalidAssertionTail(openBracketToken)` (the
malformed-assertion error production, part_002 lines 857–864).  Note
the deviation from its sibling tails: `fullStart` is captured from the
scanner *after* the caller already consumed the `openBracketToken`
child, and that `fullStart` — not `openBracketToken.pos` — is what
`finishNode` stamps as the node's `pos`. -/
def Parser.parseInvalidAssertionTail (openBracketToken : PNode)
    (st : ParserState) : PNode × ParserState :=
  let fullStart := st.scanner.startPos
  let st2 := st.skipUntil isInvalidConstraintTailRecoveryToken
  let r := Parser.parseToken SyntaxKind.closeBracketToken st2
  let node := finishNode SyntaxKind.invalidAssertion fullStart
    r.2.scanner.startPos (openBracketToken :: r.1.toList)
  (node, r.2)

/-! ## Theorems -/

theorem alookup_aset_self [DecidableEq α] (l : List (α × β)) (k : α) (v : β) :
    alookup (aset l k v) k = some v := by
  induction l with
  | nil => simp [aset, alookup]
  | cons hd tl ih =>
      by_cases h : hd.1 = k
      · simp [aset, alookup, h]
      · simp [aset, alookup, h, ih]

theorem alookup_aset_ne [DecidableEq α] (l : List (α × β)) (k k' : α) (v : β)
    (h : k ≠ k') : alookup (aset l k v) k' = alookup l k' := by
  induction l with
  | nil => simp [aset, alookup, h]
  | cons hd tl ih =>
      by_cases h1 : hd.1 = k
      · simp [aset, alookup, h1, h]
      · simp only [aset, if_neg h1]
        by_cases h2 : hd.1 = k'
        · simp [alookup, h2]
        · simp [alookup, h2, ih]

theorem aset_keys_nodup [DecidableEq α] (l : List (α × β)) (k : α) (v : β)
    (h : (l.map Prod.fst).Nodup) : ((aset l k v).map Prod.fst).Nodup := by
  induction l with
  | nil => simp [aset]
  | cons hd tl ih =>
      by_cases h1 : hd.1 = k
      · simpa [aset, h1] using h
      · simp only [aset, if_neg h1, List.map_cons, List.nodup_cons] at h ⊢
        refine ⟨fun hmem => h.1 ?_, ih h.2⟩
        -- membership in keys of `aset tl k v` implies key equals k or was a key of tl
        clear ih h
        induction tl with
        | nil => simp [aset] at hmem; exact absurd hmem h1
        | cons hd' tl' ih' =>
            by_cases h2 : hd'.1 = k
            · simpa [aset, h2] using hmem
            · simp only [aset, if_neg h2, List.map_cons, List.mem_cons] at hmem ⊢
              cases hmem with
              | inl h3 => exact Or.inl h3
              | inr h3 => exact Or.inr (ih' h3)

theorem alookup_mem [DecidableEq α] {l : List (α × β)} {k : α} {v : β}
    (h : alookup l k = some v) : (k, v) ∈ l := by
  induction l with
  | nil => simp [alookup] at h
  | cons hd tl ih =>
      by_cases h1 : hd.1 = k
      · simp only [alookup, if_pos h1] at h
        obtain ⟨k1, v1⟩ := hd
        simp only at h1
        subst h1
        simp only [Option.some.injEq] at h
        subst h
        exact List.mem_cons_self _ _
      · simp only [alookup, if_neg h1] at h
        exact List.mem_cons_of_mem _ (ih h)

theorem SymbolTable.resolveSymbol_le {tbl : SymbolTable} {bound : Nat}
    (hwf : tbl.idsLe bound = true) {n : String} {k : SymbolKind} {x : SymbolId}
    (h : tbl.resolveSymbol n k = some x) : x ≤ bound := by
  unfold SymbolTable.resolveSymbol at h
  split at h
  · cases hm : tbl.nameMap with
    | none => simp [hm] at h
    | some nameMap =>
        simp only [hm] at h
        cases hk : alookup nameMap k with
        | none => simp [hk] at h
        | some symbols =>
            simp only [hk] at h
            unfold SymbolTable.idsLe at hwf
            rw [hm] at hwf
            have h1 := (List.all_eq_true.mp hwf) _ (alookup_mem hk)
            have h2 := (List.all_eq_true.mp h1) _ (alookup_mem h)
            exact of_decide_eq_true h2
  · simp at h

/-- C10: an anonymous declaration (`undefined` or empty name) allocates a
fresh `"*missing*"` symbol with a new unique id, leaves the table unchanged,
never shares a symbol with another anonymous declaration, and the resulting
symbol cannot be resolved by name. -/
theorem declareSymbol_anonymous_fresh
    (tbl : SymbolTable) (heap : SymbolHeap) (name : Option String)
    (kind kind2 : SymbolKind) (parent parent2 : Option SymbolId)
    (hname : name = none ∨ name = some "")
    (hwf : tbl.idsLe heap.nextSymbolId = true) :
    (tbl.declareSymbol heap name kind parent).1 = heap.nextSymbolId + 1
    ∧ alookup (tbl.declareSymbol heap name kind parent).2.2.symbols
        (tbl.declareSymbol heap name kind parent).1
        = some ⟨"*missing*", kind, parent⟩
    ∧ (tbl.declareSymbol heap name kind parent).2.1 = tbl
    ∧ (∀ name2, name2 = none ∨ name2 = some "" →
        ((tbl.declareSymbol heap name kind parent).2.1.declareSymbol
            (tbl.declareSymbol heap name kind parent).2.2
            name2 kind2 parent2).1
          ≠ (tbl.declareSymbol heap name kind parent).1)
    ∧ (∀ n k, (tbl.declareSymbol heap name kind parent).2.1.resolveSymbol n k
        ≠ some (tbl.declareSymbol heap name kind parent).1) := by
  have hmain : tbl.declareSymbol heap name kind parent
      = (heap.nextSymbolId + 1, tbl,
         ⟨heap.nextSymbolId + 1,
          aset (aset heap.symbols (heap.nextSymbolId + 1)
            ⟨"*missing*", kind, none⟩) (heap.nextSymbolId + 1)
            ⟨"*missing*", kind, parent⟩⟩) := by
    rcases hname with h | h <;> subst h <;>
      simp [SymbolTable.declareSymbol, SymbolHeap.newSymbol,
        SymbolHeap.setParent, alookup_aset_self]
  refine ⟨by rw [hmain], ?_, by rw [hmain], ?_, ?_⟩
  · rw [hmain]
    simp [alookup_aset_self]
  · intro name2 hname2
    rw [hmain]
    rcases hname2 with h | h <;> subst h <;>
      simp [SymbolTable.declareSymbol, SymbolHeap.newSymbol, SymbolHeap.setParent]
  · intro n k hres
    rw [hmain] at hres
    have := SymbolTable.resolveSymbol_le hwf hres
    simp at this

/-- Witness for C10 at a concrete input: the empty table, a fresh heap and
an explicitly empty name. -/
theorem declareSymbol_anonymous_fresh_witness :
    (SymbolTable.empty.declareSymbol ⟨0, []⟩ (some "") .production none).1 = 1
    ∧ (SymbolTable.empty.declareSymbol ⟨0, []⟩ (some "") .production none).2.1
        = SymbolTable.empty := by
  have h := declareSymbol_anonymous_fresh SymbolTable.empty ⟨0, []⟩ (some "")
    .production .parameter none none (Or.inr rfl) (by decide)
  exact ⟨h.1, h.2.2.1⟩

/-- C5 (amended): provided the per-symbol scope store has been initialised
(at least one scope exists), `resolveSymbol` computes exactly the
first-match walk over the ancestor path that the specification describes. -/
theorem resolveSymbol_walks_ancestors (tbl : BindingTable)
    (locals : List (SymbolId × SymbolTable)) (name : String)
    (meaning : SymbolKind) (fuel : Nat) (location : Node)
    (h : tbl.symbolLocals = some locals) :
    tbl.resolveSymbol location name meaning fuel
      = tbl.resolveSpecPath name meaning (tbl.ancestorPath fuel (some location)) := by
  have aux : ∀ (f : Nat) (onode : Option Node),
      tbl.resolveSymbolAux locals name meaning f onode
        = tbl.resolveSpecPath name meaning (tbl.ancestorPath f onode) := by
    intro f
    induction f with
    | zero =>
        intro onode
        cases onode <;>
          simp [BindingTable.resolveSymbolAux, BindingTable.ancestorPath,
            BindingTable.resolveSpecPath]
    | succ f ih =>
        intro onode
        cases onode with
        | none =>
            simp [BindingTable.resolveSymbolAux, BindingTable.ancestorPath,
              BindingTable.resolveSpecPath]
        | some location =>
            simp only [BindingTable.resolveSymbolAux, BindingTable.ancestorPath,
              BindingTable.resolveSpecPath, h, Option.getD_some]
            by_cases hk : location.kind = NodeKind.sourceFile
            · simp [hk]
            · simp only [hk, if_false]
              cases hm : ((tbl.getSymbol location).bind fun sid =>
                  alookup locals sid).bind fun sc =>
                    sc.resolveSymbol name meaning with
              | some r => simp
              | none => simp [ih]
  unfold BindingTable.resolveSymbol
  rw [h]
  exact aux fuel (some location)

/-- Witness for C5's amended theorem at a concrete binding table whose
scope store holds one (empty) scope. -/
theorem resolveSymbol_walks_ancestors_witness :
    (BindingTable.resolveSymbol
        ⟨SymbolTable.empty, none, none, none, some [(1, SymbolTable.empty)], none⟩
        (Node.mk 2 NodeKind.production none none []) "A" .production 3)
      = (BindingTable.resolveSpecPath
          ⟨SymbolTable.empty, none, none, none, some [(1, SymbolTable.empty)], none⟩
          "A" .production
          (BindingTable.ancestorPath
            ⟨SymbolTable.empty, none, none, none, some [(1, SymbolTable.empty)], none⟩
            3 (some (Node.mk 2 NodeKind.production none none [])))) :=
  resolveSymbol_walks_ancestors _ _ "A" .production 3
    (Node.mk 2 NodeKind.production none none []) rfl

/-- C5 counterexample to the claim as stated: with the scope store still
uninitialised (`symbolLocals === undefined`, as after binding a file that
declares no production) `resolveSymbol` answers `none` even though the
walk the claim describes finds the file's symbol in the global scope at
the `SourceFile` node. -/
theorem resolveSymbol_uninitialized_locals_counterexample :
    (BindingTable.resolveSymbol
        ⟨⟨some [(SymbolKind.sourceFile, [("a.grammar", 1)])]⟩,
          none, none, none, none, none⟩
        (Node.mk 1 NodeKind.sourceFile (some "a.grammar") none [])
        "a.grammar" .sourceFile 5)
      = none
    ∧ (BindingTable.resolveSpecPath
        ⟨⟨some [(SymbolKind.sourceFile, [("a.grammar", 1)])]⟩,
          none, none, none, none, none⟩
        "a.grammar" .sourceFile
        (BindingTable.ancestorPath
          ⟨⟨some [(SymbolKind.sourceFile, [("a.grammar", 1)])]⟩,
            none, none, none, none, none⟩
          5 (some (Node.mk 1 NodeKind.sourceFile (some "a.grammar") none []))))
      = some 1 := by
  constructor
  · rfl
  · rfl

/-- C3: binding a file whose filename already resolves to a
`SourceFile`-kind symbol in the global scope changes nothing — the
binder state (symbols, declarations, references, parent links) is
returned untouched. -/
theorem bindSourceFile_idempotent (ct : Bool) (file : Node) (st : BinderSt)
    (hct : ct = false)
    (h : (st.bindings.globals.resolveSymbol (file.text.getD "")
        SymbolKind.sourceFile).isSome = true) :
    Binder.bindSourceFile ct file st = .ok st := by
  subst hct
  unfold Binder.bindSourceFile
  simp only [if_false, Bool.false_eq_true]
  cases hres : st.bindings.globals.resolveSymbol (file.text.getD "")
      SymbolKind.sourceFile with
  | some sid => simp
  | none => rw [hres] at h; simp at h

/-- Witness for C3 at a concrete already-bound file. -/
theorem bindSourceFile_idempotent_witness :
    (false = false)
    ∧ ((BinderSt.mk ⟨1, [(1, ⟨"a.grammar", .sourceFile, none⟩)]⟩
          ⟨⟨some [(SymbolKind.sourceFile, [("a.grammar", 1)])]⟩,
            none, none, none, none, none⟩).bindings.globals.resolveSymbol
          ((Node.mk 1 NodeKind.sourceFile (some "a.grammar") none []).text.getD "")
          SymbolKind.sourceFile).isSome = true
    ∧ Binder.bindSourceFile false
        (.mk 1 NodeKind.sourceFile (some "a.grammar") none [])
        (BinderSt.mk ⟨1, [(1, ⟨"a.grammar", .sourceFile, none⟩)]⟩
          ⟨⟨some [(SymbolKind.sourceFile, [("a.grammar", 1)])]⟩,
            none, none, none, none, none⟩)
        = .ok (BinderSt.mk ⟨1, [(1, ⟨"a.grammar", .sourceFile, none⟩)]⟩
          ⟨⟨some [(SymbolKind.sourceFile, [("a.grammar", 1)])]⟩,
            none, none, none, none, none⟩) :=
  ⟨rfl, by decide,
    bindSourceFile_idempotent false
      (.mk 1 NodeKind.sourceFile (some "a.grammar") none [])
      (BinderSt.mk ⟨1, [(1, ⟨"a.grammar", .sourceFile, none⟩)]⟩
        ⟨⟨some [(SymbolKind.sourceFile, [("a.grammar", 1)])]⟩,
          none, none, none, none, none⟩)
      rfl (by decide)⟩

theorem BindingTable.readScope_writeScope (tbl : BindingTable) (ref : ScopeRef)
    (sc : SymbolTable) : (tbl.writeScope ref sc).readScope ref = sc := by
  cases ref <;>
    simp [BindingTable.readScope, BindingTable.writeScope, alookup_aset_self]

theorem BindingTable.addDeclaration_globals (tbl : BindingTable)
    (sym : SymbolId) (node : Node) :
    (tbl.addDeclarationToSymbol sym node).globals = tbl.globals := by
  unfold BindingTable.addDeclarationToSymbol BindingTable.setSymbolForNode
    BindingTable.addReferenceToSymbol
  split <;> (try split) <;> rfl

theorem BindingTable.addDeclaration_symbolLocals (tbl : BindingTable)
    (sym : SymbolId) (node : Node) :
    (tbl.addDeclarationToSymbol sym node).symbolLocals = tbl.symbolLocals := by
  unfold BindingTable.addDeclarationToSymbol BindingTable.setSymbolForNode
    BindingTable.addReferenceToSymbol
  split <;> (try split) <;> rfl

theorem BindingTable.addDeclaration_readScope (tbl : BindingTable)
    (sym : SymbolId) (node : Node) (ref : ScopeRef) :
    (tbl.addDeclarationToSymbol sym node).readScope ref = tbl.readScope ref := by
  cases ref <;>
    simp [BindingTable.readScope, BindingTable.addDeclaration_globals,
      BindingTable.addDeclaration_symbolLocals]

theorem BindingTable.writeScope_symbolDeclarations (tbl : BindingTable)
    (ref : ScopeRef) (sc : SymbolTable) :
    (tbl.writeScope ref sc).symbolDeclarations = tbl.symbolDeclarations := by
  cases ref <;> rfl

theorem BindingTable.addDeclaration_symbolDeclarations (tbl : BindingTable)
    (sym : SymbolId) (node : Node) :
    (tbl.addDeclarationToSymbol sym node).symbolDeclarations
      = some (aset (tbl.symbolDeclarations.getD []) sym
          (((alookup (tbl.symbolDeclarations.getD []) sym).getD []) ++ [node.id])) := by
  unfold BindingTable.addDeclarationToSymbol BindingTable.setSymbolForNode
    BindingTable.addReferenceToSymbol
  split <;> (try split) <;> rfl

theorem SymbolTable.resolveSymbol_none_lookup {tbl : SymbolTable} {s : String}
    {k : SymbolKind} (hs : s ≠ "")
    (h : tbl.resolveSymbol s k = none) :
    alookup ((alookup (tbl.nameMap.getD []) k).getD []) s = none := by
  unfold SymbolTable.resolveSymbol at h
  rw [if_pos hs] at h
  cases hm : tbl.nameMap with
  | none => simp [hm, alookup]
  | some nameMap =>
      simp only [hm] at h
      simp only [Option.getD_some, hm]
      cases hk : alookup nameMap k with
      | none => simp [alookup]
      | some symbols =>
          simp only [hk] at h
          simpa using h

theorem aset_aset [DecidableEq α] (l : List (α × β)) (k : α) (v w : β) :
    aset (aset l k v) k w = aset l k w := by
  induction l with
  | nil => simp [aset]
  | cons hd tl ih =>
      by_cases h : hd.1 = k
      · simp [aset, h]
      · simp [aset, h, ih]

theorem SymbolTable.declareSymbol_fresh (tbl : SymbolTable) (heap : SymbolHeap)
    (s : String) (k : SymbolKind) (parent : Option SymbolId) (hs : s ≠ "")
    (hlook : alookup ((alookup (tbl.nameMap.getD []) k).getD []) s = none) :
    tbl.declareSymbol heap (some s) k parent
      = (heap.nextSymbolId + 1,
         ⟨some (aset (tbl.nameMap.getD []) k
            (aset ((alookup (tbl.nameMap.getD []) k).getD []) s
              (heap.nextSymbolId + 1)))⟩,
         ((heap.newSymbol k s).2.setParent (heap.nextSymbolId + 1) parent)) := by
  unfold SymbolTable.declareSymbol
  simp only [if_pos hs, hlook, SymbolHeap.newSymbol]

theorem SymbolTable.declareSymbol_found (tbl : SymbolTable) (heap : SymbolHeap)
    (s : String) (k : SymbolKind) (parent : Option SymbolId) (sid : SymbolId)
    (hs : s ≠ "")
    (hlook : alookup ((alookup (tbl.nameMap.getD []) k).getD []) s = some sid) :
    tbl.declareSymbol heap (some s) k parent
      = (sid,
         ⟨some (aset (tbl.nameMap.getD []) k ((alookup (tbl.nameMap.getD []) k).getD []))⟩,
         heap.setParent sid parent) := by
  unfold SymbolTable.declareSymbol
  simp only [if_pos hs, hlook]

theorem Binder.declareSymbol_eq (ctx : BindCtx) (name : Option String) (n : Node)
    (k : SymbolKind) (st : BinderSt) :
    Binder.declareSymbol ctx name n k st
      = (((st.bindings.readScope ctx.scope).declareSymbol st.heap name k
            ctx.parentSymbol).1,
         ⟨((st.bindings.readScope ctx.scope).declareSymbol st.heap name k
             ctx.parentSymbol).2.2,
          (st.bindings.writeScope ctx.scope
            ((st.bindings.readScope ctx.scope).declareSymbol st.heap name k
              ctx.parentSymbol).2.1).addDeclarationToSymbol
            ((st.bindings.readScope ctx.scope).declareSymbol st.heap name k
              ctx.parentSymbol).1 n⟩) := rfl

/-- C4: declaring a `Production` twice under the same name in the same
scope yields the same symbol (with its id unchanged), and afterwards the
symbol's declarations sequence holds exactly the two declaration sites in
order. -/
theorem production_redeclaration_same_symbol
    (ctx : BindCtx) (s : String) (n1 n2 : Node) (st : BinderSt)
    (hs : s ≠ "")
    (hfresh : (st.bindings.readScope ctx.scope).resolveSymbol s .production = none)
    (hdecl : alookup (st.bindings.symbolDeclarations.getD [])
        (st.heap.nextSymbolId + 1) = none) :
    (Binder.declareSymbol ctx (some s) n2 .production
        (Binder.declareSymbol ctx (some s) n1 .production st).2).1
      = (Binder.declareSymbol ctx (some s) n1 .production st).1
    ∧ ((Binder.declareSymbol ctx (some s) n2 .production
          (Binder.declareSymbol ctx (some s) n1 .production st).2).2.bindings.getDeclarations
        (Binder.declareSymbol ctx (some s) n1 .production st).1)
      = [n1.id, n2.id] := by
  have hlook := SymbolTable.resolveSymbol_none_lookup hs hfresh
  set nm0 := (st.bindings.readScope ctx.scope).nameMap.getD [] with hnm0
  set sym0 := (alookup nm0 SymbolKind.production).getD [] with hsym0
  set sid := st.heap.nextSymbolId + 1 with hsid
  set S := aset sym0 s sid with hS
  set M := aset nm0 SymbolKind.production S with hM
  set heap1 := (st.heap.newSymbol .production s).2.setParent sid ctx.parentSymbol
    with hheap1
  have e1 := SymbolTable.declareSymbol_fresh (st.bindings.readScope ctx.scope)
    st.heap s .production ctx.parentSymbol hs hlook
  have h1 : Binder.declareSymbol ctx (some s) n1 .production st
      = (sid, ⟨heap1,
          (st.bindings.writeScope ctx.scope ⟨some M⟩).addDeclarationToSymbol
            sid n1⟩) := by
    rw [Binder.declareSymbol_eq, e1]
  have hscope1 : (Binder.declareSymbol ctx (some s) n1 .production st).2.bindings.readScope
      ctx.scope = ⟨some M⟩ := by
    rw [h1]
    exact (BindingTable.addDeclaration_readScope _ _ _ _).trans
      (BindingTable.readScope_writeScope _ _ _)
  have hlook2 : alookup ((alookup ((⟨some M⟩ : SymbolTable).nameMap.getD [])
      SymbolKind.production).getD []) s = some sid := by
    show alookup ((alookup ((some M).getD []) SymbolKind.production).getD []) s
      = some sid
    rw [Option.getD_some, hM, alookup_aset_self, Option.getD_some, hS,
      alookup_aset_self]
  have e2 := SymbolTable.declareSymbol_found (⟨some M⟩ : SymbolTable) heap1 s
    .production ctx.parentSymbol sid hs hlook2
  have hMM : aset ((⟨some M⟩ : SymbolTable).nameMap.getD []) SymbolKind.production
      ((alookup ((⟨some M⟩ : SymbolTable).nameMap.getD []) SymbolKind.production).getD [])
      = M := by
    show aset ((some M).getD []) SymbolKind.production
      ((alookup ((some M).getD []) SymbolKind.production).getD []) = M
    rw [Option.getD_some, hM, alookup_aset_self, Option.getD_some, aset_aset]
  rw [hMM] at e2
  have h2 : Binder.declareSymbol ctx (some s) n2 .production
      (Binder.declareSymbol ctx (some s) n1 .production st).2
      = (sid, ⟨heap1.setParent sid ctx.parentSymbol,
          (((st.bindings.writeScope ctx.scope ⟨some M⟩).addDeclarationToSymbol sid
              n1).writeScope ctx.scope ⟨some M⟩).addDeclarationToSymbol sid n2⟩) := by
    rw [Binder.declareSymbol_eq, h1]
    simp only
    rw [BindingTable.addDeclaration_readScope, BindingTable.readScope_writeScope, e2]
  have hb1d : (((st.bindings.writeScope ctx.scope ⟨some M⟩).addDeclarationToSymbol
      sid n1).symbolDeclarations)
      = some (aset (st.bindings.symbolDeclarations.getD []) sid [n1.id]) := by
    rw [BindingTable.addDeclaration_symbolDeclarations,
      BindingTable.writeScope_symbolDeclarations, hdecl]
    rfl
  refine ⟨by rw [h2, h1], ?_⟩
  rw [h2, h1]
  simp only
  unfold BindingTable.getDeclarations
  rw [BindingTable.addDeclaration_symbolDeclarations,
    BindingTable.writeScope_symbolDeclarations, hb1d]
  simp only [Option.getD_some, alookup_aset_self, aset_aset]
  rfl

/-- Witness for C4: two concrete `Production` declarations of the name `A`
in the empty global scope. -/
theorem production_redeclaration_same_symbol_witness :
    (Binder.declareSymbol ⟨none, none, .globals⟩ (some "A")
        (.mk 20 NodeKind.production none (some (.mk 21 NodeKind.identifier
          (some "A") none [])) [])
        .production
        (Binder.declareSymbol ⟨none, none, .globals⟩ (some "A")
          (.mk 10 NodeKind.production none (some (.mk 11 NodeKind.identifier
            (some "A") none [])) [])
          .production ⟨⟨0, []⟩, BindingTable.empty⟩).2).1
      = (Binder.declareSymbol ⟨none, none, .globals⟩ (some "A")
          (.mk 10 NodeKind.production none (some (.mk 11 NodeKind.identifier
            (some "A") none [])) [])
          .production ⟨⟨0, []⟩, BindingTable.empty⟩).1
    ∧ ((Binder.declareSymbol ⟨none, none, .globals⟩ (some "A")
          (.mk 20 NodeKind.production none (some (.mk 21 NodeKind.identifier
            (some "A") none [])) [])
          .production
          (Binder.declareSymbol ⟨none, none, .globals⟩ (some "A")
            (.mk 10 NodeKind.production none (some (.mk 11 NodeKind.identifier
              (some "A") none [])) [])
            .production ⟨⟨0, []⟩, BindingTable.empty⟩).2).2.bindings.getDeclarations
        (Binder.declareSymbol ⟨none, none, .globals⟩ (some "A")
          (.mk 10 NodeKind.production none (some (.mk 11 NodeKind.identifier
            (some "A") none [])) [])
          .production ⟨⟨0, []⟩, BindingTable.empty⟩).1)
      = [10, 20] :=
  production_redeclaration_same_symbol ⟨none, none, .globals⟩ "A"
    (.mk 10 NodeKind.production none (some (.mk 11 NodeKind.identifier
      (some "A") none [])) [])
    (.mk 20 NodeKind.production none (some (.mk 21 NodeKind.identifier
      (some "A") none [])) [])
    ⟨⟨0, []⟩, BindingTable.empty⟩ (by decide) rfl rfl

theorem refsNodup_addRef (tbl : BindingTable) (sym : SymbolId) (nid : Nat)
    (h : RefsNodup tbl.symbolReferences) :
    RefsNodup (tbl.addReferenceToSymbol sym nid).symbolReferences := by
  intro s l hl
  unfold BindingTable.addReferenceToSymbol at hl
  simp only [Option.getD_some] at hl
  by_cases hs : sym = s
  · subst hs
    rw [alookup_aset_self] at hl
    cases hl
    have hcur : ((alookup (tbl.symbolReferences.getD []) sym).getD []).Nodup := by
      cases hc : alookup (tbl.symbolReferences.getD []) sym with
      | none => simp
      | some l0 => simpa using h _ _ hc
    split
    · exact hcur
    · next hmem =>
        simp only [List.nodup_append, List.nodup_cons, List.nodup_nil]
        refine ⟨hcur, by simp, ?_⟩
        intro a ha hae
        simp only [List.mem_singleton] at hae
        exact hmem (hae ▸ ha)
  · rw [alookup_aset_ne _ _ _ _ hs] at hl
    exact h _ _ hl

theorem addRef_nodeMap (tbl : BindingTable) (sym : SymbolId) (nid : Nat) :
    (tbl.addReferenceToSymbol sym nid).nodeMap = tbl.nodeMap := rfl

theorem addRef_symbolDeclarations (tbl : BindingTable) (sym : SymbolId) (nid : Nat) :
    (tbl.addReferenceToSymbol sym nid).symbolDeclarations = tbl.symbolDeclarations := rfl

theorem setSymbolForNode_refs (tbl : BindingTable) (nid : Nat) (sym : SymbolId) :
    (tbl.setSymbolForNode nid sym).symbolReferences = tbl.symbolReferences := rfl

theorem nodeMapNodup_set (tbl : BindingTable) (nid : Nat) (sym : SymbolId)
    (h : NodeMapNodup tbl.nodeMap) :
    NodeMapNodup (tbl.setSymbolForNode nid sym).nodeMap := by
  unfold NodeMapNodup at h ⊢
  unfold BindingTable.setSymbolForNode
  simpa using aset_keys_nodup _ nid sym h

/-- One `BindingTable` operation preserves the reference- and owner-map
invariants and extends each declarations sequence by exactly the sites
the operation records. -/
theorem bop_step (tbl : BindingTable) (op : BOp)
    (h1 : RefsNodup tbl.symbolReferences) (h2 : NodeMapNodup tbl.nodeMap) :
    RefsNodup (op.apply tbl).symbolReferences
    ∧ NodeMapNodup (op.apply tbl).nodeMap
    ∧ ∀ s, (op.apply tbl).getDeclarations s
        = tbl.getDeclarations s
          ++ (match op with
              | .addDeclaration s' n => if s' = s then [n.id] else []
              | _ => []) := by
  cases op with
  | setParent n p =>
      refine ⟨h1, h2, fun s => by simp [BOp.apply, BindingTable.setParent,
        BindingTable.getDeclarations]⟩
  | getScope c =>
      have happ : BOp.apply tbl (BOp.getScope c) = (tbl.getScope c).2 := rfl
      have hfields : (tbl.getScope c).2.symbolReferences = tbl.symbolReferences
          ∧ (tbl.getScope c).2.nodeMap = tbl.nodeMap
          ∧ (tbl.getScope c).2.symbolDeclarations = tbl.symbolDeclarations := by
        unfold BindingTable.getScope
        simp only
        split <;> exact ⟨rfl, rfl, rfl⟩
      refine ⟨?_, ?_, fun s => ?_⟩
      · rw [happ, hfields.1]; exact h1
      · rw [happ, hfields.2.1]; exact h2
      · rw [happ]
        unfold BindingTable.getDeclarations
        rw [hfields.2.2]
        simp
  | setSymbol n sym =>
      unfold BOp.apply BindingTable.setSymbol
      refine ⟨refsNodup_addRef _ _ _ ?_, ?_, fun s => ?_⟩
      · rw [setSymbolForNode_refs]; exact h1
      · rw [addRef_nodeMap]; exact nodeMapNodup_set _ _ _ h2
      · simp [BindingTable.getDeclarations, BindingTable.addReferenceToSymbol,
          BindingTable.setSymbolForNode]
  | addDeclaration sym n =>
      have hrefs : ∀ tbl' : BindingTable,
          tbl'.symbolReferences = tbl.symbolReferences →
          RefsNodup (tbl'.addDeclarationToSymbol sym n).symbolReferences := by
        intro tbl' he
        unfold BindingTable.addDeclarationToSymbol
        split
        · split
          · apply refsNodup_addRef
            simp only [setSymbolForNode_refs]
            show RefsNodup tbl'.symbolReferences
            rw [he]; exact h1
          · simp only [setSymbolForNode_refs]
            show RefsNodup tbl'.symbolReferences
            rw [he]; exact h1
        · simp only [setSymbolForNode_refs]
          show RefsNodup tbl'.symbolReferences
          rw [he]; exact h1
      refine ⟨hrefs tbl rfl, ?_, fun s => ?_⟩
      · show NodeMapNodup (tbl.addDeclarationToSymbol sym n).nodeMap
        unfold BindingTable.addDeclarationToSymbol
        simp only
        split
        · split
          · simp only [addRef_nodeMap]
            exact nodeMapNodup_set _ _ _ h2
          · exact nodeMapNodup_set _ _ _ h2
        · exact nodeMapNodup_set _ _ _ h2
      · show (tbl.addDeclarationToSymbol sym n).getDeclarations s = _
        unfold BindingTable.getDeclarations
        rw [BindingTable.addDeclaration_symbolDeclarations]
        by_cases hs : sym = s
        · subst hs
          simp [alookup_aset_self]
        · rw [Option.getD_some, alookup_aset_ne _ _ _ _ hs]
          simp [hs]

/-- C9: after any sequence of `BindingTable` operations starting from a
fresh table, each node is mapped to at most one owning symbol (the
node-to-symbol map binds each node id once), every reference sequence
contains any given node at most once, and each symbol's declarations
sequence holds exactly one entry per declaration site, duplicates
allowed, in order. -/
theorem bindingTable_invariants (ops : List BOp) (s : SymbolId) :
    RefsNodup (applyOps ops BindingTable.empty).symbolReferences
    ∧ NodeMapNodup (applyOps ops BindingTable.empty).nodeMap
    ∧ (applyOps ops BindingTable.empty).getDeclarations s = declSites ops s := by
  have main : ∀ (ops : List BOp) (tbl : BindingTable),
      RefsNodup tbl.symbolReferences → NodeMapNodup tbl.nodeMap →
      RefsNodup (applyOps ops tbl).symbolReferences
      ∧ NodeMapNodup (applyOps ops tbl).nodeMap
      ∧ ∀ s, (applyOps ops tbl).getDeclarations s
          = tbl.getDeclarations s ++ declSites ops s := by
    intro ops
    induction ops with
    | nil =>
        intro tbl h1 h2
        exact ⟨h1, h2, fun s => by simp [applyOps, declSites]⟩
    | cons op rest ih =>
        intro tbl h1 h2
        have hstep := bop_step tbl op h1 h2
        have hrest := ih (op.apply tbl) hstep.1 hstep.2.1
        refine ⟨hrest.1, hrest.2.1, fun s => ?_⟩
        show (applyOps rest (op.apply tbl)).getDeclarations s = _
        rw [hrest.2.2 s, hstep.2.2 s, List.append_assoc]
        congr 1
        cases op with
        | addDeclaration s' n =>
            by_cases hss : s' = s <;> simp [declSites, hss]
        | setParent a b => simp [declSites]
        | setSymbol a b => simp [declSites]
        | getScope c => simp [declSites]
  have h0 : RefsNodup (BindingTable.empty).symbolReferences := by
    intro s l hl
    simp [BindingTable.empty, alookup] at hl
  have h0' : NodeMapNodup (BindingTable.empty).nodeMap := by
    simp [NodeMapNodup, BindingTable.empty]
  exact ⟨(main ops _ h0 h0').1, (main ops _ h0 h0').2.1, (main ops _ h0 h0').2.2 s⟩

/-! ### Basic facts about the modelled scanner/parser operations -/
theorem nextToken_scanner_diagNull (st : ParserState) :
    st.nextToken.scanner.diagNull = st.scanner.diagNull := by
  unfold ParserState.nextToken ScannerState.scan
  simp only
  split <;> rfl

theorem nextToken_scanner_tokens (st : ParserState) :
    st.nextToken.scanner.tokens = st.scanner.tokens := by
  unfold ParserState.nextToken ScannerState.scan
  simp only
  split <;> rfl

theorem nextToken_eof (st : ParserState)
    (h : st.scanner.tokens[st.scanner.pos]? = none) :
    st.nextToken.token = SyntaxKind.endOfFileToken := by
  unfold ParserState.nextToken ScannerState.scan
  simp [h]

theorem nextToken_pos (st : ParserState) {t : SyntaxKind}
    (h : st.scanner.tokens[st.scanner.pos]? = some t) :
    st.nextToken.scanner.pos = st.scanner.pos + 1 := by
  unfold ParserState.nextToken ScannerState.scan
  simp [h]

theorem skipWhitespaceAux_of_eof (skip : SkipWhitespaceFlags) :
    ∀ (fuel : Nat) (st : ParserState),
    st.token = SyntaxKind.endOfFileToken → skipWhitespaceAux skip fuel st = st := by
  intro fuel st h
  cases fuel with
  | zero => rfl
  | succ fuel => simp [skipWhitespaceAux, h, isWhitespaceTok]

theorem skipWhitespaceAux_not_ws (skip : SkipWhitespaceFlags) :
    ∀ (fuel : Nat) (st : ParserState),
    st.scanner.tokens.length + 1 - st.scanner.pos < fuel →
    isWhitespaceTok skip (skipWhitespaceAux skip fuel st).token = false := by
  intro fuel
  induction fuel with
  | zero => intro st h; omega
  | succ fuel ih =>
      intro st h
      unfold skipWhitespaceAux
      cases hws : isWhitespaceTok skip st.token with
      | false => simp [hws]
      | true =>
          simp only [hws, if_true]
          cases hget : st.scanner.tokens[st.scanner.pos]? with
          | some t =>
              apply ih
              have hlt : st.scanner.pos < st.scanner.tokens.length := by
                by_contra hge
                rw [List.getElem?_eq_none (by omega)] at hget
                exact Option.noConfusion hget
              rw [nextToken_pos st hget, nextToken_scanner_tokens]
              omega
          | none =>
              rw [skipWhitespaceAux_of_eof skip fuel _ (nextToken_eof st hget),
                nextToken_eof st hget]
              rfl

/-- After the whitespace-skip phase, the current token is never one of
the classes the flags mark as skippable. -/
theorem skipWhitespace_not_ws (skip : SkipWhitespaceFlags) (st : ParserState) :
    isWhitespaceTok skip (st.skipWhitespace skip).token = false :=
  skipWhitespaceAux_not_ws skip _ st (by omega)

theorem skipUntilAux_of_stop (p : SyntaxKind → Bool) :
    ∀ (fuel : Nat) (st : ParserState),
    (p st.token || st.token == SyntaxKind.endOfFileToken) = true →
    skipUntilAux p fuel st = st := by
  intro fuel st h
  cases fuel with
  | zero => rfl
  | succ fuel => simp [skipUntilAux, h]

theorem skipUntilAux_post (p : SyntaxKind → Bool) :
    ∀ (fuel : Nat) (st : ParserState),
    st.scanner.tokens.length + 1 - st.scanner.pos < fuel →
    p (skipUntilAux p fuel st).token = true
    ∨ (skipUntilAux p fuel st).token = SyntaxKind.endOfFileToken := by
  intro fuel
  induction fuel with
  | zero => intro st h; omega
  | succ fuel ih =>
      intro st h
      unfold skipUntilAux
      cases hstop : p st.token || st.token == SyntaxKind.endOfFileToken with
      | true =>
          simp only [hstop, if_true]
          rcases Bool.or_eq_true_iff.mp hstop with h1 | h1
          · exact Or.inl h1
          · exact Or.inr (by simpa using h1)
      | false =>
          simp only [hstop, Bool.false_eq_true, if_false]
          cases hget : st.scanner.tokens[st.scanner.pos]? with
          | some t =>
              apply ih
              have hlt : st.scanner.pos < st.scanner.tokens.length := by
                by_contra hge
                rw [List.getElem?_eq_none (by omega)] at hget
                exact Option.noConfusion hget
              rw [nextToken_pos st hget, nextToken_scanner_tokens]
              omega
          | none =>
              rw [skipUntilAux_of_stop p fuel _ (by
                rw [nextToken_eof st hget]; simp)]
              exact Or.inr (nextToken_eof st hget)

/-- Source: `skipUntil` lands on a token of the target set, or at end of file. -/
theorem skipUntil_post (p : SyntaxKind → Bool) (st : ParserState) :
    p (st.skipUntil p).token = true
    ∨ (st.skipUntil p).token = SyntaxKind.endOfFileToken :=
  skipUntilAux_post p _ st (by omega)

theorem skipWhitespaceAux_diagBag (skip : SkipWhitespaceFlags) :
    ∀ (fuel : Nat) (st : ParserState),
    (skipWhitespaceAux skip fuel st).diagBag = st.diagBag := by
  intro fuel
  induction fuel with
  | zero => intro st; rfl
  | succ fuel ih =>
      intro st
      unfold skipWhitespaceAux
      split
      · exact ih st.nextToken
      · rfl

theorem skipWhitespace_diagBag (skip : SkipWhitespaceFlags) (st : ParserState) :
    (st.skipWhitespace skip).diagBag = st.diagBag :=
  skipWhitespaceAux_diagBag skip _ st

theorem skipUntilAux_diagBag (p : SyntaxKind → Bool) :
    ∀ (fuel : Nat) (st : ParserState),
    (skipUntilAux p fuel st).diagBag = st.diagBag := by
  intro fuel
  induction fuel with
  | zero => intro st; rfl
  | succ fuel ih =>
      intro st
      unfold skipUntilAux
      split
      · rfl
      · exact ih st.nextToken

theorem skipUntil_diagBag (p : SyntaxKind → Bool) (st : ParserState) :
    (st.skipUntil p).diagBag = st.diagBag :=
  skipUntilAux_diagBag p _ st

theorem skipThenMaybeLT_diagBag (p : SyntaxKind → Bool) (st : ParserState) :
    (if (st.skipUntil p).token == SyntaxKind.lineTerminatorToken
     then (st.skipUntil p).nextToken
     else st.skipUntil p).diagBag = st.diagBag := by
  split
  · exact skipUntil_diagBag p st
  · exact skipUntil_diagBag p st

/-- Source: `recover` never touches the diagnostic sequence. -/
theorem recover_diagBag (ctx : ParsingContext) (st : ParserState) :
    (recover ctx st).diagBag = st.diagBag := by
  cases ctx <;>
    first
      | exact skipUntil_diagBag _ st
      | exact skipThenMaybeLT_diagBag _ st

/-- Source: `recover` is exactly: skip to the context's recovery-token set, then
(for the contexts that do) consume one trailing line terminator. -/
theorem recover_eq (ctx : ParsingContext) (st : ParserState) :
    recover ctx st
      = (if consumesTrailingLineTerminator ctx
            && ((st.skipUntil (contextRecoveryPred ctx)).token
                == SyntaxKind.lineTerminatorToken)
         then (st.skipUntil (contextRecoveryPred ctx)).nextToken
         else st.skipUntil (contextRecoveryPred ctx)) := by
  cases ctx <;>
    simp [recover, contextRecoveryPred, consumesTrailingLineTerminator]

/-- A context owns an expected-tokens diagnostic exactly when it has a
close token. -/
theorem expectedTokensDiagnostic_isSome (ctx : ParsingContext) :
    (expectedTokensDiagnostic ctx).isSome = hasCloseToken ctx := by
  cases ctx <;> rfl

/-- Source: `reportDiagnostics` reports exactly the context's expected-tokens
diagnostic at the current token position (and nothing for the contexts
that own none). -/
theorem reportDiagnostics_eq (ctx : ParsingContext) (st : ParserState) :
    reportDiagnostics ctx st
      = (match expectedTokensDiagnostic ctx with
         | some m => st.report st.scanner.startPos m
         | none => st) := by
  cases ctx <;> rfl

/-! ### The speculation rollback/discard contract (C1) -/
/-- Closed form of `Parser.speculate`: the callback runs in the
redirected state; on a falsy result or a lookahead the token, the
parsing context and the whole scanner state are rolled back, otherwise
only the two diagnostic references are put back. -/
theorem parserSpeculate_eq (run : ParserState → ParserState)
    (res : ParserState → Bool) (isLookahead : Bool) (st : ParserState) :
    parserSpeculate run res isLookahead st
      = (res (run (speculationEntry st)),
         if !(res (run (speculationEntry st))) || isLookahead then
           { run (speculationEntry st) with
               token := st.token,
               parsingContext := st.parsingContext,
               diagNull := st.diagNull,
               scanner := st.scanner }
         else
           { run (speculationEntry st) with
               diagNull := st.diagNull,
               scanner := { (run (speculationEntry st)).scanner with
                 diagNull := st.scanner.diagNull } }) := by
  unfold parserSpeculate scannerSpeculate speculationEntry
  simp only
  split <;> rfl

theorem parserSpeculate_discard (run : ParserState → ParserState)
    (res : ParserState → Bool) (isLookahead : Bool) (st : ParserState)
    (hrun : (run (speculationEntry st)).diagBag = (speculationEntry st).diagBag
        ∧ (run (speculationEntry st)).diagNull = true
        ∧ (run (speculationEntry st)).scanner.diagNull = true) :
    (parserSpeculate run res isLookahead st).2.diagBag = st.diagBag
    ∧ (parserSpeculate run res isLookahead st).2.diagNull = st.diagNull
    ∧ (parserSpeculate run res isLookahead st).2.scanner.diagNull
        = st.scanner.diagNull := by
  obtain ⟨hb, _, _⟩ := hrun
  rw [parserSpeculate_eq]
  simp only
  split <;> exact ⟨hb.trans rfl, rfl, rfl⟩

/-- Any callback program run with both diagnostic references redirected
to the discard sink leaves the committed diagnostic sequence untouched
(and keeps the references redirected). -/
theorem runProg_discard (p : PProg) : ∀ st : ParserState,
    st.diagNull = true → st.scanner.diagNull = true →
    (runProg p st).diagBag = st.diagBag
    ∧ (runProg p st).diagNull = true
    ∧ (runProg p st).scanner.diagNull = true := by
  induction p with
  | done => intro st h1 h2; exact ⟨rfl, h1, h2⟩
  | nextToken k ih =>
      intro st h1 h2
      have e3 : st.nextToken.scanner.diagNull = st.scanner.diagNull :=
        nextToken_scanner_diagNull st
      obtain ⟨a, b, c⟩ := ih st.nextToken h1 (e3.trans h2)
      exact ⟨a, b, c⟩
  | report m k ih =>
      intro st h1 h2
      have e : st.report st.scanner.startPos m = st := by
        unfold ParserState.report
        rw [h1]
        simp
      show (runProg k (st.report st.scanner.startPos m)).diagBag = st.diagBag
        ∧ (runProg k (st.report st.scanner.startPos m)).diagNull = true
        ∧ (runProg k (st.report st.scanner.startPos m)).scanner.diagNull = true
      rw [e]
      exact ih st h1 h2
  | scanReport m k ih =>
      intro st h1 h2
      have e : st.scanReport st.scanner.startPos m = st := by
        unfold ParserState.scanReport
        rw [h2]
        simp
      show (runProg k (st.scanReport st.scanner.startPos m)).diagBag = st.diagBag
        ∧ (runProg k (st.scanReport st.scanner.startPos m)).diagNull = true
        ∧ (runProg k (st.scanReport st.scanner.startPos m)).scanner.diagNull = true
      rw [e]
      exact ih st h1 h2
  | setParsingContext c k ih =>
      intro st h1 h2
      exact ih { st with parsingContext := c } h1 h2
  | speculate sub res isLookahead k ihsub ihk =>
      intro st h1 h2
      have hrun := ihsub (speculationEntry st) rfl rfl
      have hd := parserSpeculate_discard (fun s => runProg sub s) res isLookahead
        st hrun
      obtain ⟨a, b, c⟩ := ihk (parserSpeculate (fun s => runProg sub s) res
        isLookahead st).2 (hd.2.1.trans h1) (hd.2.2.trans h2)
      exact ⟨a.trans hd.1, b, c⟩

/-- C1: `lookahead` always restores the current token, the parsing
context and the full scanner state; `tryParse` restores them exactly when
the callback's result is falsy and otherwise keeps the callback's final
position (commit); in both, the committed diagnostic sequence is never
changed — everything reported while the callback runs goes to the
discard sink. -/
theorem speculation_restores_and_discards (sub : PProg)
    (res : ParserState → Bool) (st : ParserState) :
    ((Parser.lookahead sub res st).2.token = st.token
      ∧ (Parser.lookahead sub res st).2.parsingContext = st.parsingContext
      ∧ (Parser.lookahead sub res st).2.scanner = st.scanner
      ∧ (Parser.lookahead sub res st).2.diagBag = st.diagBag)
    ∧ ((Parser.tryParse sub res st).1 = false →
        (Parser.tryParse sub res st).2.token = st.token
        ∧ (Parser.tryParse sub res st).2.parsingContext = st.parsingContext
        ∧ (Parser.tryParse sub res st).2.scanner = st.scanner)
    ∧ ((Parser.tryParse sub res st).1 = true →
        (Parser.tryParse sub res st).2.token
          = (runProg sub (speculationEntry st)).token
        ∧ (Parser.tryParse sub res st).2.parsingContext
          = (runProg sub (speculationEntry st)).parsingContext
        ∧ (Parser.tryParse sub res st).2.scanner.pos
          = (runProg sub (speculationEntry st)).scanner.pos
        ∧ (Parser.tryParse sub res st).2.scanner.startPos
          = (runProg sub (speculationEntry st)).scanner.startPos)
    ∧ (Parser.tryParse sub res st).2.diagBag = st.diagBag := by
  have hdiscardL := parserSpeculate_discard (fun s => runProg sub s) res true st
    (runProg_discard sub (speculationEntry st) rfl rfl)
  have hdiscardT := parserSpeculate_discard (fun s => runProg sub s) res false st
    (runProg_discard sub (speculationEntry st) rfl rfl)
  have heqL := parserSpeculate_eq (fun s => runProg sub s) res true st
  have heqT := parserSpeculate_eq (fun s => runProg sub s) res false st
  refine ⟨⟨?_, ?_, ?_, hdiscardL.1⟩, ?_, ?_, hdiscardT.1⟩
  · show (parserSpeculate (fun s => runProg sub s) res true st).2.token = st.token
    rw [heqL]
    simp
  · show (parserSpeculate (fun s => runProg sub s) res true st).2.parsingContext
      = st.parsingContext
    rw [heqL]
    simp
  · show (parserSpeculate (fun s => runProg sub s) res true st).2.scanner
      = st.scanner
    rw [heqL]
    simp
  · intro hfalse
    have hres : res (runProg sub (speculationEntry st)) = false := by
      have : (parserSpeculate (fun s => runProg sub s) res false st).1
          = res (runProg sub (speculationEntry st)) := by rw [heqT]
      rw [← this]
      exact hfalse
    refine ⟨?_, ?_, ?_⟩ <;>
      · show _ = _
        rw [show Parser.tryParse sub res st
          = parserSpeculate (fun s => runProg sub s) res false st from rfl, heqT]
        simp [hres]
  · intro htrue
    have hres : res (runProg sub (speculationEntry st)) = true := by
      have : (parserSpeculate (fun s => runProg sub s) res false st).1
          = res (runProg sub (speculationEntry st)) := by rw [heqT]
      rw [← this]
      exact htrue
    refine ⟨?_, ?_, ?_, ?_⟩ <;>
      · show _ = _
        rw [show Parser.tryParse sub res st
          = parserSpeculate (fun s => runProg sub s) res false st from rfl, heqT]
        simp [hres]

/-- Witness for C1 at a concrete program (consume a token, then report a
diagnostic) and concrete parser states, covering the lookahead, the
falsy-tryParse and the truthy-tryParse cases. -/
theorem speculation_restores_and_discards_witness :
    (Parser.lookahead
        (PProg.nextToken (PProg.report .productionExpected PProg.done))
        (fun s => s.token == SyntaxKind.identifier)
        ⟨⟨[.terminal], 0, 0, false⟩, .terminal, [], [], false, .sourceElements,
          none, 0, none, 0⟩).2.token = SyntaxKind.terminal
    ∧ (Parser.lookahead
        (PProg.nextToken (PProg.report .productionExpected PProg.done))
        (fun s => s.token == SyntaxKind.identifier)
        ⟨⟨[.terminal], 0, 0, false⟩, .terminal, [], [], false, .sourceElements,
          none, 0, none, 0⟩).2.diagBag = []
    ∧ (Parser.tryParse
        (PProg.nextToken (PProg.report .productionExpected PProg.done))
        (fun _ => false)
        ⟨⟨[.terminal], 0, 0, false⟩, .terminal, [], [], false, .sourceElements,
          none, 0, none, 0⟩).2.scanner
      = (⟨[.terminal], 0, 0, false⟩ : ScannerState)
    ∧ (Parser.tryParse
        (PProg.nextToken (PProg.report .productionExpected PProg.done))
        (fun _ => true)
        ⟨⟨[.terminal], 0, 0, false⟩, .terminal, [], [], false, .sourceElements,
          none, 0, none, 0⟩).2.token
      = (runProg (PProg.nextToken (PProg.report .productionExpected PProg.done))
          (speculationEntry
            ⟨⟨[.terminal], 0, 0, false⟩, .terminal, [], [], false,
              .sourceElements, none, 0, none, 0⟩)).token
    ∧ (Parser.tryParse
        (PProg.nextToken (PProg.report .productionExpected PProg.done))
        (fun _ => true)
        ⟨⟨[.terminal], 0, 0, false⟩, .terminal, [], [], false, .sourceElements,
          none, 0, none, 0⟩).2.diagBag = [] := by
  have h1 := speculation_restores_and_discards
    (PProg.nextToken (PProg.report .productionExpected PProg.done))
    (fun s => s.token == SyntaxKind.identifier)
    ⟨⟨[.terminal], 0, 0, false⟩, .terminal, [], [], false, .sourceElements,
      none, 0, none, 0⟩
  have h2 := speculation_restores_and_discards
    (PProg.nextToken (PProg.report .productionExpected PProg.done))
    (fun _ => false)
    ⟨⟨[.terminal], 0, 0, false⟩, .terminal, [], [], false, .sourceElements,
      none, 0, none, 0⟩
  have h3 := speculation_restores_and_discards
    (PProg.nextToken (PProg.report .productionExpected PProg.done))
    (fun _ => true)
    ⟨⟨[.terminal], 0, 0, false⟩, .terminal, [], [], false, .sourceElements,
      none, 0, none, 0⟩
  exact ⟨h1.1.1, h1.1.2.2.2, (h2.2.1 (by decide)).2.2,
    (h3.2.2.1 (by decide)).1, h3.2.2.2⟩

/-! ### `parseSourceFile` re-entrancy (C6) and cancellation (C7) -/
theorem pollCancellation_ok {ct : Option Nat} {st st' : ParserState}
    (h : pollCancellation ct st = .ok st') :
    st' = { st with polls := st.polls + 1 } := by
  unfold pollCancellation at h
  cases ct with
  | none => simpa using h.symm
  | some k =>
      have h2 : (if k ≤ st.polls
          then (Except.error Cancelled.cancelled : Except Cancelled ParserState)
          else .ok { st with polls := st.polls + 1 }) = .ok st' := h
      by_cases hk : k ≤ st.polls
      · rw [if_pos hk] at h2
        exact Except.noConfusion h2
      · rw [if_neg hk] at h2
        simpa using h2.symm

/-- C6 (amended): `parseSourceFile` restores, on the normal and the
exception path alike, the imports, the diagnostics target (reference and
content), the cancellation token, the scanner, the parsing context and
the pending-markup (tags) state — but not the current token, which the
source neither saves nor restores. -/
theorem parseSourceFile_restores (hooks : GrammarHooks α) (filename : String)
    (text : List SyntaxKind) (ct : Option Nat) (fuel : Nat) (st : ParserState) :
    (Parser.parseSourceFile hooks filename text ct fuel st).2.imports = st.imports
    ∧ (Parser.parseSourceFile hooks filename text ct fuel st).2.diagBag = st.diagBag
    ∧ (Parser.parseSourceFile hooks filename text ct fuel st).2.diagNull = st.diagNull
    ∧ (Parser.parseSourceFile hooks filename text ct fuel st).2.cancelledAt = st.cancelledAt
    ∧ (Parser.parseSourceFile hooks filename text ct fuel st).2.scanner = st.scanner
    ∧ (Parser.parseSourceFile hooks filename text ct fuel st).2.parsingContext
        = st.parsingContext
    ∧ (Parser.parseSourceFile hooks filename text ct fuel st).2.tags = st.tags
    ∧ (Parser.parseSourceFile hooks filename text ct fuel st).2.tagsOffset
        = st.tagsOffset := by
  unfold Parser.parseSourceFile
  cases hpoll : pollCancellation ct st with
  | error c => exact ⟨rfl, rfl, rfl, rfl, rfl, rfl, rfl, rfl⟩
  | ok stp =>
      have hstp := pollCancellation_ok hpoll
      subst hstp
      exact ⟨rfl, rfl, rfl, rfl, rfl, rfl, rfl, rfl⟩

/-- C6 counterexample to the claim as stated: a (nested) call to
`parseSourceFile` clobbers the enclosing parse's current token — here
the enclosing state holds a `Terminal` token, and after parsing an empty
file the field is left at `EndOfFileToken`. -/
theorem parseSourceFile_token_not_restored_counterexample :
    ((⟨⟨[.terminal], 0, 0, false⟩, SyntaxKind.terminal, [], [], false,
        .sourceElements, none, 0, none, 0⟩ : ParserState)).token
      = SyntaxKind.terminal
    ∧ (Parser.parseSourceFile
        (⟨fun _ => false, fun _ => false, fun _ => false, fun _ => false,
          fun _ s => (none, s)⟩ : GrammarHooks Unit)
        "b.grammar" [] none 5
        ⟨⟨[.terminal], 0, 0, false⟩, SyntaxKind.terminal, [], [], false,
          .sourceElements, none, 0, none, 0⟩).2.token
      = SyntaxKind.endOfFileToken := by
  constructor
  · rfl
  · rfl

/-- C7: cancellation behaviour.  (a) An already-cancelled token makes
`parseSourceFile` abort immediately, returning the cancellation signal
with the state untouched — no `SourceFile` is constructed.  (b) The
token is polled at the top of every list-parse iteration: entering an
iteration with a cancelled token aborts the loop at once, leaving the
state (in particular the diagnostic sequence) exactly as it was.  (c) A
cancellation raised inside `parse` propagates out of `parseSourceFile`.
(d) The poll itself never records a diagnostic.  (e) An aborted
`parseSourceFile` leaves the caller's diagnostic sequence unchanged. -/
theorem parse_cancellation_behavior (hooks : GrammarHooks α) (filename : String)
    (text : List SyntaxKind) (fuel k : Nat) (st : ParserState)
    (ctx : ParsingContext) (stI : ParserState) (result : Option (List α)) :
    (k ≤ st.polls →
      Parser.parseSourceFile hooks filename text (some k) fuel st
        = (.error .cancelled, st))
    ∧ (stI.token ≠ SyntaxKind.endOfFileToken → stI.cancelledAt = some k →
        k ≤ stI.polls →
        parseListLoop hooks ctx (fuel + 1) stI result = (.error .cancelled, stI))
    ∧ (∀ stp c, pollCancellation (some k) st = .ok stp →
        (Parser.parse hooks filename text (some k) fuel stp).1 = .error c →
        (Parser.parseSourceFile hooks filename text (some k) fuel st).1 = .error c)
    ∧ (∀ ct st', pollCancellation ct st = .ok st' → st'.diagBag = st.diagBag)
    ∧ (∀ ct c, (Parser.parseSourceFile hooks filename text ct fuel st).1 = .error c →
        (Parser.parseSourceFile hooks filename text ct fuel st).2.diagBag
          = st.diagBag) := by
  refine ⟨?_, ?_, ?_, ?_, ?_⟩
  · intro hk
    unfold Parser.parseSourceFile pollCancellation
    simp [hk]
  · intro hne hca hk
    unfold parseListLoop
    rw [if_neg (by simpa using hne)]
    have hiter : parseListIter hooks ctx stI result = .cancelled stI := by
      unfold parseListIter ParserState.throwIfCancellationRequested pollCancellation
      rw [hca]
      simp [hk]
    rw [hiter]
  · intro stp c hpoll hparse
    unfold Parser.parseSourceFile
    rw [hpoll]
    simpa using hparse
  · intro ct st' hpoll
    rw [pollCancellation_ok hpoll]
  · intro ct c _
    exact (parseSourceFile_restores hooks filename text ct fuel st).2.1

/-- Witness for C7 at concrete inputs: a pre-cancelled token aborting
`parseSourceFile`, and a cancelled poll aborting a list iteration. -/
theorem parse_cancellation_behavior_witness :
    Parser.parseSourceFile
        (⟨fun _ => false, fun _ => false, fun _ => false, fun _ => false,
          fun _ s => (none, s)⟩ : GrammarHooks Unit)
        "a.grammar" [.terminal] (some 0) 5
        ⟨⟨[.terminal], 0, 0, false⟩, SyntaxKind.terminal, [], [], false,
          .sourceElements, none, 0, none, 0⟩
      = (.error .cancelled,
         ⟨⟨[.terminal], 0, 0, false⟩, SyntaxKind.terminal, [], [], false,
          .sourceElements, none, 0, none, 0⟩)
    ∧ parseListLoop
        (⟨fun _ => false, fun _ => false, fun _ => false, fun _ => false,
          fun _ s => (none, s)⟩ : GrammarHooks Unit)
        ParsingContext.oneOfList 5
        ⟨⟨[.terminal], 0, 0, false⟩, SyntaxKind.terminal, [], [], false,
          .sourceElements, some 0, 0, none, 0⟩ none
      = (.error .cancelled,
         ⟨⟨[.terminal], 0, 0, false⟩, SyntaxKind.terminal, [], [], false,
          .sourceElements, some 0, 0, none, 0⟩) := by
  have h1 := parse_cancellation_behavior
    (⟨fun _ => false, fun _ => false, fun _ => false, fun _ => false,
      fun _ s => (none, s)⟩ : GrammarHooks Unit)
    "a.grammar" [.terminal] 4 0
    ⟨⟨[.terminal], 0, 0, false⟩, SyntaxKind.terminal, [], [], false,
      .sourceElements, none, 0, none, 0⟩
    ParsingContext.oneOfList
    ⟨⟨[.terminal], 0, 0, false⟩, SyntaxKind.terminal, [], [], false,
      .sourceElements, some 0, 0, none, 0⟩ none
  exact ⟨h1.1 (by decide), h1.2.1 (by decide) rfl (by decide)⟩

/-! ### The generic list loop's per-iteration contract (C2) -/
/-- C2 (amended): each iteration of `parseList` (1) skips exactly the
whitespace classes the context's policy marks insignificant, so the
element attempt never sees one of them; (2) on element-start with a
successful element parse, appends the element (exactly once) and moves
to the close/separator decision; (3) on element-start with a failed
parse, runs the context's recovery instead and appends nothing;
(4) recovery skips to the context's recovery-token set (or end of
file); (5) stops when the context's close token is matched, consuming
it exactly when the policy says to; (6) when neither an element, a
separator, nor a close token matched and the context has a close token,
reports the context's expected-tokens diagnostic and skips to the next
recovery token; (7) (the amendment) in the two contexts without a close
token it stops silently instead of reporting; (8) a matched separator is
consumed and the loop continues. -/
theorem parseList_iteration_spec (hooks : GrammarHooks α) (ctx : ParsingContext)
    (st st1 : ParserState) (result : Option (List α))
    (hpoll : st.throwIfCancellationRequested = .ok st1) :
    isWhitespaceTok (shouldSkipWhitespace ctx)
      (st1.skipWhitespace (shouldSkipWhitespace ctx)).token = false
    ∧ (∀ (e : α) (st3 : ParserState),
        shouldParseElement hooks ctx
          (st1.skipWhitespace (shouldSkipWhitespace ctx)) = true →
        hooks.parseElement ctx
          (st1.skipWhitespace (shouldSkipWhitespace ctx)) = (some e, st3) →
        parseListIter hooks ctx st result
          = listCloseSepPhase ctx (some ((result.getD []) ++ [e])) true st3)
    ∧ (∀ st3 : ParserState,
        shouldParseElement hooks ctx
          (st1.skipWhitespace (shouldSkipWhitespace ctx)) = true →
        hooks.parseElement ctx
          (st1.skipWhitespace (shouldSkipWhitespace ctx)) = (none, st3) →
        parseListIter hooks ctx st result
          = listCloseSepPhase ctx (some (result.getD [])) true (recover ctx st3))
    ∧ (∀ st0 : ParserState,
        contextRecoveryPred ctx
          (st0.skipUntil (contextRecoveryPred ctx)).token = true
        ∨ (st0.skipUntil (contextRecoveryPred ctx)).token
            = SyntaxKind.endOfFileToken)
    ∧ (∀ (r : Option (List α)) (parsed : Bool) (st4 : ParserState),
        hasCloseToken ctx = true → isOnCloseToken ctx st4.token = true →
        listCloseSepPhase ctx r parsed st4
          = IterOut.stop r
              (if shouldConsumeCloseToken ctx then st4.nextToken else st4))
    ∧ (∀ (r : Option (List α)) (st4 : ParserState),
        hasCloseToken ctx = true → isOnCloseToken ctx st4.token = false →
        (hasSeparator ctx = true → isOnSeparator ctx st4.token = false) →
        listCloseSepPhase ctx r false st4
          = IterOut.next r (recover ctx (reportDiagnostics ctx st4))
        ∧ (st4.diagNull = false →
            ∃ m, expectedTokensDiagnostic ctx = some m
              ∧ (reportDiagnostics ctx st4).diagBag
                  = st4.diagBag ++ [⟨st4.scanner.startPos, m⟩]))
    ∧ (∀ (r : Option (List α)) (st4 : ParserState),
        hasCloseToken ctx = false →
        (hasSeparator ctx = true → isOnSeparator ctx st4.token = false) →
        listCloseSepPhase ctx r false st4 = IterOut.stop r st4)
    ∧ (∀ (r : Option (List α)) (parsed : Bool) (st4 : ParserState),
        hasCloseToken ctx = true → isOnCloseToken ctx st4.token = false →
        hasSeparator ctx = true → isOnSeparator ctx st4.token = true →
        listCloseSepPhase ctx r parsed st4 = IterOut.next r st4.nextToken) := by
  refine ⟨skipWhitespace_not_ws _ _, ?_, ?_, fun st0 => skipUntil_post _ st0,
    ?_, ?_, ?_, ?_⟩
  · intro e st3 hstart helem
    unfold parseListIter
    rw [hpoll]
    simp [hstart, helem]
  · intro st3 hstart helem
    unfold parseListIter
    rw [hpoll]
    simp [hstart, helem]
  · intro r parsed st4 hclose hon
    unfold listCloseSepPhase
    by_cases hc : shouldConsumeCloseToken ctx <;>
      simp [hclose, hon, hc]
  · intro r st4 hclose hon hsep
    constructor
    · unfold listCloseSepPhase
      by_cases hs : hasSeparator ctx
      · by_cases hc : shouldConsumeCloseToken ctx <;>
          simp [hclose, hon, hc, hs, hsep hs]
      · by_cases hc : shouldConsumeCloseToken ctx <;>
          simp [hclose, hon, hc, hs]
    · intro hdn
      have hsome : (expectedTokensDiagnostic ctx).isSome = true := by
        rw [expectedTokensDiagnostic_isSome, hclose]
      cases hm : expectedTokensDiagnostic ctx with
      | none => rw [hm] at hsome; simp at hsome
      | some m =>
          refine ⟨m, rfl, ?_⟩
          rw [reportDiagnostics_eq, hm]
          unfold ParserState.report
          rw [hdn]
          simp
  · intro r st4 hclose hsep
    unfold listCloseSepPhase
    by_cases hs : hasSeparator ctx
    · simp [hclose, hs, hsep hs]
    · simp [hclose, hs]
  · intro r parsed st4 hclose hon hsep hon2
    unfold listCloseSepPhase
    by_cases hc : shouldConsumeCloseToken ctx <;>
      simp [hclose, hon, hc, hsep, hon2]

/-- Witness for C2's amended theorem at a concrete context and states. -/
theorem parseList_iteration_spec_witness :
    isWhitespaceTok (shouldSkipWhitespace ParsingContext.parameters)
      ((⟨⟨[.lineTerminatorToken, .identifier], 1, 0, false⟩,
          SyntaxKind.lineTerminatorToken, [], [], false, .parameters,
          none, 1, none, 0⟩ : ParserState).skipWhitespace
        (shouldSkipWhitespace ParsingContext.parameters)).token = false
    ∧ listCloseSepPhase ParsingContext.parameters (some ([] : List Unit)) false
        ⟨⟨[.closeParenToken], 0, 0, false⟩, SyntaxKind.closeParenToken, [], [],
          false, .parameters, none, 1, none, 0⟩
      = IterOut.stop (some ([] : List Unit))
          ⟨⟨[.closeParenToken], 0, 0, false⟩, SyntaxKind.closeParenToken, [], [],
            false, .parameters, none, 1, none, 0⟩ := by
  have h := parseList_iteration_spec
    (⟨fun _ => false, fun _ => false, fun _ => false, fun _ => false,
      fun _ s => (none, s)⟩ : GrammarHooks Unit)
    ParsingContext.parameters
    ⟨⟨[.lineTerminatorToken, .identifier], 1, 0, false⟩,
      SyntaxKind.lineTerminatorToken, [], [], false, .parameters, none, 0,
      none, 0⟩
    ⟨⟨[.lineTerminatorToken, .identifier], 1, 0, false⟩,
      SyntaxKind.lineTerminatorToken, [], [], false, .parameters, none, 1,
      none, 0⟩
    (some []) rfl
  refine ⟨h.1, ?_⟩
  have h5 := h.2.2.2.2.1 (some ([] : List Unit)) false
    ⟨⟨[.closeParenToken], 0, 0, false⟩, SyntaxKind.closeParenToken, [], [],
      false, .parameters, none, 1, none, 0⟩ rfl (by decide)
  simpa using h5

/-- C2 counterexample to the claim as stated: in the `OneOfSymbolList`
context (no close token), with a `,` under the cursor — not an element
start, not the `or` separator, and no close token to match — the loop
silently stops: no expected-tokens diagnostic is reported and the
position does not move to the next recovery token (the `or` ahead),
where the claim demands a report and a skip. -/
theorem parseList_no_close_token_counterexample :
    parseList
        (⟨fun _ => false, fun _ => false, fun _ => false, fun _ => false,
          fun _ s => (none, s)⟩ : GrammarHooks Unit)
        ParsingContext.oneOfSymbolList 5
        ⟨⟨[.commaToken, .orKeyword], 1, 0, false⟩, SyntaxKind.commaToken, [],
          [], false, .sourceElements, none, 0, none, 0⟩ none
      = (.ok none,
         ⟨⟨[.commaToken, .orKeyword], 1, 0, false⟩, SyntaxKind.commaToken, [],
          [], false, .sourceElements, none, 1, none, 0⟩)
    ∧ isOneOfSymbolListRecoveryToken SyntaxKind.commaToken = false := by
  constructor
  · rfl
  · rfl

theorem rangeWF_pos_le (n : PNode) (h : rangeWF n = true) : n.pos ≤ n.endPos := by
  cases n with
  | mk kind p q children =>
      unfold rangeWF at h
      simp only [Bool.and_eq_true, decide_eq_true_eq] at h
      exact h.1

mutual
theorem builtF_range : ∀ (n : PNode) (p q : Nat), BuiltF p n q →
    n.pos = p ∧ n.endPos = q ∧ rangeWF n = true
  | .mk kind p0 q0 children, p, q, h => by
      obtain ⟨hp, hq, hch⟩ := h
      subst hp
      subst hq
      have hc := builtChildrenF_range children p0 q0 hch
      refine ⟨rfl, rfl, ?_⟩
      unfold rangeWF
      simp only [Bool.and_eq_true, decide_eq_true_eq]
      exact ⟨hc.1, hc.2 p0 q0 (Nat.le_refl _) (Nat.le_refl _)⟩

theorem builtChildrenF_range : ∀ (cs : List PNode) (c q : Nat),
    BuiltChildrenF c cs q →
    c ≤ q ∧ ∀ a b, a ≤ c → q ≤ b → rangeWFList a b cs = true
  | [], c, q, h => ⟨h, fun a b _ _ => rfl⟩
  | ch :: rest, c, q, h => by
      obtain ⟨cStart, qEnd, hcc, hch, hrest⟩ := h
      have h1 := builtF_range ch cStart qEnd hch
      have h2 := builtChildrenF_range rest qEnd q hrest
      obtain ⟨hqq, hrested⟩ := h2
      have hle : cStart ≤ qEnd := by
        have hpe := rangeWF_pos_le ch h1.2.2
        rw [h1.1, h1.2.1] at hpe
        exact hpe
      refine ⟨by omega, ?_⟩
      intro a b ha hb
      unfold rangeWFList
      simp only [Bool.and_eq_true, decide_eq_true_eq]
      refine ⟨⟨⟨?_, ?_⟩, h1.2.2⟩, ?_⟩
      · rw [h1.1]; omega
      · rw [h1.2.1]; omega
      · exact hrested a b (by omega) hb
end

/-- Every node built by the regular `finishNode` discipline (all
node-building sites except `parseInvalidAssertionTail`) has `pos ≤ end`,
and each child's half-open range is contained within its parent's,
recursively throughout the tree. -/
theorem parse_tree_ranges_wf (n : PNode) (p q : Nat) (h : BuiltF p n q) :
    n.pos = p ∧ n.endPos = q ∧ rangeWF n = true :=
  builtF_range n p q h

/-- A concrete two-level tree built by the regular discipline
(a parent spanning positions 0–4 with one child spanning 1–3). -/
theorem parse_tree_ranges_wf_witness :
    rangeWF (PNode.mk SyntaxKind.terminal 0 4
      [PNode.mk SyntaxKind.identifier 1 3 []]) = true :=
  (parse_tree_ranges_wf
    (PNode.mk SyntaxKind.terminal 0 4 [PNode.mk SyntaxKind.identifier 1 3 []])
    0 4
    ⟨rfl, rfl, 1, 3, by omega,
      ⟨rfl, rfl, by show (1 : Nat) ≤ 3; omega⟩,
      by show (3 : Nat) ≤ 4; omega⟩).2.2

/-- C8 (code bug): the claim — every node of a parsed tree has
`pos ≤ end` and each child's half-open range contained in its parent's —
is the spec's evident intent, but `parseInvalidAssertionTail` violates
it.  On the spec's own §8 example `A : [junk]` the assertion tokenises
as `[` (index 0), an identifier (index 1), `]` (index 2); the caller
consumes the `[` and falls through to `parseInvalidAssertionTail`,
which captures `fullStart = 1` (after the bracket), finds the
identifier already in its recovery set, fails to parse `]`, and stamps
the `InvalidAssertion` with range `[1, 1)` — while its
`openBracketToken` child spans `[0, 1)`, strictly outside the parent's
range, so the containment invariant is false of the produced tree. -/
theorem parseInvalidAssertionTail_range_violation :
    (Parser.parseInvalidAssertionTail
        (finishNode SyntaxKind.openBracketToken 0 1 [])
        ⟨⟨[.openBracketToken, .identifier, .closeBracketToken], 2, 1, false⟩,
          SyntaxKind.identifier, [], [], false, .sourceElements, none, 0,
          none, 0⟩).1
      = PNode.mk SyntaxKind.invalidAssertion 1 1
          [PNode.mk SyntaxKind.openBracketToken 0 1 []]
    ∧ (finishNode SyntaxKind.openBracketToken 0 1 []).pos
        < (Parser.parseInvalidAssertionTail
            (finishNode SyntaxKind.openBracketToken 0 1 [])
            ⟨⟨[.openBracketToken, .identifier, .closeBracketToken], 2, 1, false⟩,
              SyntaxKind.identifier, [], [], false, .sourceElements, none, 0,
              none, 0⟩).1.pos
    ∧ rangeWF (Parser.parseInvalidAssertionTail
        (finishNode SyntaxKind.openBracketToken 0 1 [])
        ⟨⟨[.openBracketToken, .identifier, .closeBracketToken], 2, 1, false⟩,
          SyntaxKind.identifier, [], [], false, .sourceElements, none, 0,
          none, 0⟩).1 = false := by
  refine ⟨rfl, ?_, rfl⟩
  decide

end GMD
